import Mathlib

/-!
Verification of the task-lifecycle / resource-governance core of the
repository against its specification.

The embedding covers three source components:
* `TimerManager` (src/src/utils/timer-manager.ts, first class in the file):
  registry of managed intervals/timeouts with lifecycle policies
  (`maxExecutions`, `ttlMs`, `memoryPressureLimit`, `streamCompleted`),
  per-tick termination checks, and `emergencyCleanup`.
* `Mutex` (src/src/utils/mutex.ts): an asynchronous FIFO lock with a wait
  queue, `unlock` handing the lock to the head of the queue via a deferred
  (`setImmediate`) regrant, and `withLock` releasing in a `finally` block.
* `ResourceLifecycleManager` (src/unnamed/part_003): a tracked-resource
  table with `register` / `access` / `unregister` and an emergency
  eviction of the oldest 25% (floor) by `lastAccessed` when the table
  exceeds `maxResources`.

JavaScript `Map`s are embedded as insertion-ordered association lists with
unique keys; `Map.delete` removes every entry under the key and `Map.set`
replaces in place (appending when the key is absent), which coincides with
the source on every state whose keys are unique.  Timestamps are integers
(milliseconds), the memory-pressure sample is a rational in [0,1], and
application callbacks / cleanup functions are opaque: each invocation's
outcome (normal return or thrown exception) is an `Except` input of the
step, and the state records the invocation order so that "the callback ran
k times" is expressible.
-/

deriving instance DecidableEq for Except

namespace Spec2Proof

/-! ## Association-list maps (JavaScript `Map` with string keys) -/

def jsLookup {α : Type} : List (String × α) → String → Option α
  | [], _ => none
  | e :: t, k => if e.1 = k then some e.2 else jsLookup t k

def jsSet {α : Type} : List (String × α) → String → α → List (String × α)
  | [], k, v => [(k, v)]
  | e :: t, k, v => if e.1 = k then (k, v) :: jsSet t k v else e :: jsSet t k v

def jsDel {α : Type} : List (String × α) → String → List (String × α)
  | [], _ => []
  | e :: t, k => if e.1 = k then jsDel t k else e :: jsDel t k

def keysOf {α : Type} (l : List (String × α)) : List String := l.map Prod.fst

/-! ## TimerManager (src/src/utils/timer-manager.ts) -/

inductive TType
  | interval
  | timeout
deriving DecidableEq

/-- The `TimerHandle` from the source: one registry entry.  `token` stands for
the native `NodeJS.Timeout` object returned by the host `setInterval` /
`setTimeout`; a handle can only fire while its token is armed. -/
structure TimerHandle where
  id : String
  type : TType
  token : Nat
  delay : Int
  created : Int
  lastExecuted : Option Int
  executionCount : Nat
  maxExecutions : Option Nat
  ttlMs : Option Int
  memoryPressureLimit : Option ℚ
  streamCompleted : Bool
deriving DecidableEq

/-- State of a `TimerManager` instance.  `armed` lists the live native
timers as (token, id-captured-by-the-wrapped-callback) pairs; `calls`
records, in order, the id of every application callback invocation;
`log` collects console output relevant to the claims. -/
structure TMState where
  timers : List (String × TimerHandle)
  nextId : Nat
  isShuttingDown : Bool
  armed : List (Nat × String)
  nextToken : Nat
  calls : List String
  log : List String
deriving DecidableEq

/-- The `shouldTerminateTimer` (timer-manager.ts:396-420).  The source guards
every optional field with JavaScript truthiness, so a field set to `0` is
treated exactly like an absent field. -/
def shouldTerminateTimer (h : TimerHandle) (now : Int) (pressure : ℚ) : Bool :=
  (match h.maxExecutions with
   | some m => decide (m ≠ 0) && decide (m ≤ h.executionCount)
   | none => false) ||
  (match h.ttlMs with
   | some t => decide (t ≠ 0) && decide (t ≤ now - h.created)
   | none => false) ||
  (match h.memoryPressureLimit with
   | some p => decide (p ≠ 0) && decide (p < pressure)
   | none => false) ||
  h.streamCompleted

/-- The `clearTimer` (timer-manager.ts:174-193): cancel the native timer and
drop the registry entry; returns false for unknown ids. -/
def clearTimer (id : String) (st : TMState) : Bool × TMState :=
  match jsLookup st.timers id with
  | none => (false, st)
  | some h =>
      (true,
        { st with
          armed := st.armed.filter (fun p => decide (p.1 ≠ h.token)),
          timers := jsDel st.timers id })

def autoTermLog (id : String) : String := "Auto-terminating timer: " ++ id

/-- The exact console.error text of timer-manager.ts:84, followed by the
stringified error: the interpolation mentions the id but nothing else. -/
def cbErrorLog (id : String) (e : String) : String :=
  "Timer " ++ id ++ " callback error:" ++ e

/-- One tick input: the wall clock at the tick, the sampled memory
pressure, and the outcome of the (opaque) application callback, were it
to be invoked. -/
structure Tick where
  now : Int
  pressure : ℚ
  cbResult : Except String Unit
deriving DecidableEq

/-- The `wrappedCallback` of `setInterval` (timer-manager.ts:67-92): look
up the live handle by the captured id; evaluate the termination predicate
before running the callback; stamp/increment; run the callback catching
any exception; evaluate the termination predicate again afterwards. -/
def tick (id : String) (t : Tick) (st : TMState) : TMState :=
  match jsLookup st.timers id with
  | none => st
  | some h =>
    if shouldTerminateTimer h t.now t.pressure then
      (clearTimer id { st with log := st.log ++ [autoTermLog id] }).2
    else
      let h1 := { h with lastExecuted := some t.now,
                         executionCount := h.executionCount + 1 }
      let st1 := { st with timers := jsSet st.timers id h1,
                           calls := st.calls ++ [id],
                           log := match t.cbResult with
                                  | Except.ok _ => st.log
                                  | Except.error e => st.log ++ [cbErrorLog id e] }
      if shouldTerminateTimer h1 t.now t.pressure then
        (clearTimer id { st1 with log := st1.log ++ [autoTermLog id] }).2
      else st1

def runTicks (id : String) (ts : List Tick) (st : TMState) : TMState :=
  ts.foldl (fun s t => tick id t s) st

structure IntervalOptions where
  maxExecutions : Option Nat := none
  ttlMs : Option Int := none
  memoryPressureLimit : Option ℚ := none
deriving DecidableEq

def freshIntervalId (st : TMState) : String × TMState :=
  ("interval_" ++ toString st.nextId, { st with nextId := st.nextId + 1 })

/-- The `TimerManager.setInterval` (timer-manager.ts:45-117): refuse during
shutdown; `name || generated` (the empty string is falsy); clear any
existing timer under the id; arm a fresh native timer; install the
handle. -/
def tmSetInterval (delay : Int) (name : Option String) (opts : IntervalOptions)
    (now : Int) (st : TMState) : String × TMState :=
  if st.isShuttingDown then
    ("", { st with log := st.log ++
      ["Timer manager is shutting down, ignoring setInterval request"] })
  else
    let p : String × TMState :=
      match name with
      | some n => if n = "" then freshIntervalId st else (n, st)
      | none => freshIntervalId st
    let id := p.1
    let stA := p.2
    let stB := if (jsLookup stA.timers id).isSome then (clearTimer id stA).2 else stA
    let h : TimerHandle :=
      { id := id, type := TType.interval, token := stB.nextToken, delay := delay,
        created := now, lastExecuted := none, executionCount := 0,
        maxExecutions := opts.maxExecutions, ttlMs := opts.ttlMs,
        memoryPressureLimit := opts.memoryPressureLimit, streamCompleted := false }
    (id, { stB with armed := stB.armed ++ [(stB.nextToken, id)],
                    nextToken := stB.nextToken + 1,
                    timers := jsSet stB.timers id h })

/-- Long-running test of `findProblematicTimers` (timer-manager.ts:279-303):
age strictly above five minutes. -/
def longRunningB (now : Int) (h : TimerHandle) : Bool :=
  decide (300000 < now - h.created)

/-- High-execution test of `findProblematicTimers`: strictly above 1000
executions. -/
def highExecutionB (h : TimerHandle) : Bool :=
  decide (1000 < h.executionCount)

def problematicB (now : Int) (h : TimerHandle) : Bool :=
  longRunningB now h || highExecutionB h

/-- The `findProblematicTimers` returns the two handle lists in registry
order. -/
def findProblematicTimers (now : Int) (st : TMState) :
    List TimerHandle × List TimerHandle :=
  ((st.timers.map Prod.snd).filter (longRunningB now),
   (st.timers.map Prod.snd).filter highExecutionB)

def clearMany (ids : List String) (st : TMState) : TMState :=
  ids.foldl (fun s i => (clearTimer i s).2) st

/-- The `TimerManager.emergencyCleanup` (timer-manager.ts:324-353): clear the
long-running timers, then the high-execution timers, and if more than ten
timers still remain, clear every interval (keeping timeouts).  It takes no
cap argument and performs no ranking. -/
def emergencyCleanup (now : Int) (st : TMState) : TMState :=
  let prob := findProblematicTimers now st
  let st1 := clearMany (prob.1.map TimerHandle.id) st
  let st2 := clearMany (prob.2.map TimerHandle.id) st1
  if 10 < st2.timers.length then
    let intervalIds :=
      (st2.timers.filter (fun e => decide (e.2.type = TType.interval))).map Prod.fst
    clearMany intervalIds st2
  else st2

/-- Every handle is stored under its own id (true of every state the
source can reach, since `setInterval`/`setTimeout` key the map by the
handle's id). -/
def tmWellFormed (st : TMState) : Prop :=
  ∀ e ∈ st.timers, (Prod.snd e).id = e.1

def tmNodupKeys (st : TMState) : Prop := (keysOf st.timers).Nodup

instance (st : TMState) : Decidable (tmWellFormed st) :=
  inferInstanceAs (Decidable (∀ e ∈ st.timers, (Prod.snd e).id = e.1))

instance (st : TMState) : Decidable (tmNodupKeys st) :=
  inferInstanceAs (Decidable (keysOf st.timers).Nodup)

/-! ## Mutex (src/src/utils/mutex.ts)

The lock is driven by the host's single-threaded event loop, embedded as a
small-step machine.  Waiters are numbered by arrival (`nextWaiter`).  A
queue item granted the lock stays at the head of `queue` until the
holder's `unlock` shifts it out, exactly as in the source, where `tryLock`
resolves the promise without removing the item.  `unlock` captures the new
queue head and schedules its `tryLock` through `setImmediate`; the pending
scheduled regrant is `pendingGrant`.  `grants` and `arrivals` are ghost
logs of promise resolutions and of `lock()` calls. -/

inductive LockEvent
  | req
  | rel
  | deliver
  | timedOut (w : Nat)
deriving DecidableEq

structure LockState where
  locked : Bool
  currentHolder : Option Nat
  queue : List Nat
  pendingGrant : Option Nat
  grants : List Nat
  arrivals : List Nat
  nextWaiter : Nat
  lockAcquisitionCount : Nat
  contentionCount : Nat
  maxQueueSize : Nat
deriving DecidableEq

/-- The inner `tryLock` closure of `Mutex.lock` (mutex.ts:14-26): grab the
lock if free (resolving the waiter's promise), otherwise count a
contention. -/
def tryLock (w : Nat) (st : LockState) : LockState :=
  if st.locked then
    { st with contentionCount := st.contentionCount + 1 }
  else
    { st with locked := true, currentHolder := some w,
              lockAcquisitionCount := st.lockAcquisitionCount + 1,
              grants := st.grants ++ [w] }

/-- One event of the lock machine.
`req` is a `lock()` call: push the queue item and, when it is the only
item, call its `tryLock` synchronously (mutex.ts:44-49).
`rel` is `unlock()` (mutex.ts:53-66): free the lock, shift the holder's
item, and schedule the new head's `tryLock` via `setImmediate`.
`deliver` is that `setImmediate` callback firing.
`timedOut w` is waiter w's timeout firing, splicing it out of the queue
(mutex.ts:28-34). -/
def lockStep : LockEvent → LockState → LockState
  | LockEvent.req, st =>
      let w := st.nextWaiter
      let q := st.queue ++ [w]
      let st1 := { st with queue := q, arrivals := st.arrivals ++ [w],
                           nextWaiter := w + 1,
                           maxQueueSize := max st.maxQueueSize q.length }
      if q.length = 1 then tryLock w st1 else st1
  | LockEvent.rel, st =>
      let q := st.queue.drop 1
      { st with locked := false, currentHolder := none, queue := q,
                pendingGrant := q.head? }
  | LockEvent.deliver, st =>
      match st.pendingGrant with
      | none => st
      | some w => tryLock w { st with pendingGrant := none }
  | LockEvent.timedOut w, st =>
      { st with queue := st.queue.eraseP (fun x => decide (x = w)) }

/-- Event preconditions: `unlock` is only called by the current holder,
`deliver` only fires when a regrant was scheduled, and a timeout only
fires for an ungranted enqueued waiter (a granted waiter's timeout was
cleared by its `tryLock`). -/
def okEvent : LockEvent → LockState → Bool
  | LockEvent.req, _ => true
  | LockEvent.rel, st => st.locked
  | LockEvent.deliver, st => st.pendingGrant.isSome
  | LockEvent.timedOut w, st =>
      decide (w ∈ st.queue) && decide (st.currentHolder ≠ some w)

def validFrom : LockState → List LockEvent → Bool
  | _, [] => true
  | st, e :: es => okEvent e st && validFrom (lockStep e st) es

def runEvents (es : List LockEvent) (st : LockState) : LockState :=
  es.foldl (fun s e => lockStep e s) st

def initLock : LockState :=
  { locked := false, currentHolder := none, queue := [], pendingGrant := none,
    grants := [], arrivals := [], nextWaiter := 0,
    lockAcquisitionCount := 0, contentionCount := 0, maxQueueSize := 0 }

/-- The waiters that have not yet been granted the lock: the queue minus
the holder's item (which sits at the head while the lock is held). -/
def waiting (st : LockState) : List Nat :=
  if st.locked then st.queue.drop 1 else st.queue

def noTimeoutFire (es : List LockEvent) : Bool :=
  es.all (fun e => match e with | LockEvent.timedOut _ => false | _ => true)

/-- The `Mutex.withLock` (mutex.ts:68-75) for a caller whose body finishes
with outcome `fnResult` while `reqsDuring` other `lock()` calls arrive
during the body: acquire, run the body, and release in the `finally`
block on both the normal and the throwing path, propagating the body's
outcome unchanged. -/
def withLockRun (fnResult : Except String Unit) (reqsDuring : Nat)
    (st : LockState) : Except String Unit × LockState :=
  let stAcq := lockStep LockEvent.req st
  let stMid := Nat.repeat (lockStep LockEvent.req) reqsDuring stAcq
  match fnResult with
  | Except.ok a => (Except.ok a, lockStep LockEvent.rel stMid)
  | Except.error e => (Except.error e, lockStep LockEvent.rel stMid)

/-- The mutex invariant: request order is grant order followed by the
still-waiting queue; a held lock means a nonempty queue; a scheduled
regrant is for the queue head and only exists while the lock is free. -/
def lockInv (st : LockState) : Prop :=
  st.arrivals = st.grants ++ waiting st
  ∧ (st.locked = true → st.queue ≠ [])
  ∧ (∀ w, st.pendingGrant = some w → st.queue.head? = some w)
  ∧ (st.pendingGrant.isSome → st.locked = false)

/-! ## ResourceLifecycleManager (src/unnamed/part_003) -/

/-- A `NativeResource`: the cleanup behavior is opaque, so each resource
carries the outcome its `cleanup()` produces when invoked, and the manager
state records the invocation order. -/
structure Resource where
  rid : String
  rtype : String
  cleanupResult : Except String Unit
  memoryUsage : Option Int
deriving DecidableEq

/-- The `ResourceInfo` (part_003:21-27). -/
structure ResourceInfo where
  resource : Resource
  createdAt : Int
  lastAccessed : Int
  accessCount : Nat
  memoryUsage : Option Int
deriving DecidableEq

inductive REvent
  | registered (id ty : String)
  | unregistered (id ty : String)
  | cleanupFailed (id : String)
deriving DecidableEq

/-- State of a `ResourceLifecycleManager`: the tracked table, the
configured capacity, the ordered log `cleaned` of every `cleanup()`
invocation, the emitted events, and the console error log. -/
structure RState where
  resources : List (String × ResourceInfo)
  maxResources : Nat
  maxIdleTime : Int
  cleaned : List String
  events : List REvent
  log : List String
deriving DecidableEq

/-- The `unregister` (part_003:84-100): invoke `cleanup()` first; on success
delete and emit `resource_unregistered`; on a thrown error log it, still
delete, and emit `resource_cleanup_failed`.  Unknown ids are a no-op. -/
def unregisterRes (id : String) (st : RState) : RState :=
  match jsLookup st.resources id with
  | none => st
  | some info =>
    let st1 := { st with cleaned := st.cleaned ++ [id] }
    match info.resource.cleanupResult with
    | Except.ok _ =>
        { st1 with resources := jsDel st1.resources id,
                   events := st1.events ++ [REvent.unregistered id info.resource.rtype] }
    | Except.error _ =>
        { st1 with log := st1.log ++ ["Failed to cleanup resource " ++ id],
                   resources := jsDel st1.resources id,
                   events := st1.events ++ [REvent.cleanupFailed id] }

def byLastAccessed (a b : String × ResourceInfo) : Prop :=
  a.2.lastAccessed ≤ b.2.lastAccessed

instance : DecidableRel byLastAccessed :=
  fun a b => inferInstanceAs (Decidable (a.2.lastAccessed ≤ b.2.lastAccessed))

instance : IsTotal (String × ResourceInfo) byLastAccessed :=
  ⟨fun a b => Int.le_total a.2.lastAccessed b.2.lastAccessed⟩

instance : IsTrans (String × ResourceInfo) byLastAccessed :=
  ⟨fun _ _ _ hab hbc => le_trans hab hbc⟩

/-- The `performEmergencyCleanup` (part_003:175-190): stably sort the table
by `lastAccessed` ascending, take the floor of a quarter of the current
count, and unregister those entries. -/
def performEmergencyCleanup (st : RState) : RState :=
  let entries := st.resources
  let sorted := List.insertionSort byLastAccessed entries
  let cleanupCount := entries.length / 4
  let toCleanup := sorted.take cleanupCount
  (toCleanup.map Prod.fst).foldl (fun s i => unregisterRes i s) st

def mkInfo (r : Resource) (now : Int) : ResourceInfo :=
  { resource := r, createdAt := now, lastAccessed := now, accessCount := 1,
    memoryUsage := r.memoryUsage }

/-- The `register` (part_003:56-79): replace an already-registered id (the
source fires `unregister` without awaiting it; it is modelled as
completing before the insert), insert the new record, and only then, if
the table now exceeds `maxResources`, run the emergency cleanup; finally
emit `resource_registered`. -/
def registerRes (r : Resource) (now : Int) (st : RState) : RState :=
  let st0 := if (jsLookup st.resources r.rid).isSome then unregisterRes r.rid st else st
  let st1 := { st0 with resources := jsSet st0.resources r.rid (mkInfo r now) }
  let st2 := if st1.maxResources < st1.resources.length
             then performEmergencyCleanup st1 else st1
  { st2 with events := st2.events ++ [REvent.registered r.rid r.rtype] }

/-- Modelled from the spec (§4.3 `register`, for comparison with the
source's `registerRes`): "before inserting, if the number of tracked
resources would exceed `maxResources`, evict the oldest 25% by
`lastAccessedAt` (emergency eviction), invoking their cleanup as in
`unregister`, then insert the new resource." -/
def specRegister (r : Resource) (now : Int) (st : RState) : RState :=
  let st0 :=
    if st.maxResources < st.resources.length + 1 then
      let sorted := List.insertionSort byLastAccessed st.resources
      ((sorted.take (st.resources.length / 4)).map Prod.fst).foldl
        (fun s i => unregisterRes i s) st
    else st
  { st0 with resources := jsSet st0.resources r.rid (mkInfo r now) }

def rNodupKeys (st : RState) : Prop := (keysOf st.resources).Nodup

instance (st : RState) : Decidable (rNodupKeys st) :=
  inferInstanceAs (Decidable (keysOf st.resources).Nodup)

/-! ## Concrete states used by counterexamples and witnesses -/

/-- A deferred (one-shot) task six and a half minutes old. -/
def oldTimeoutHandle : TimerHandle :=
  { id := "t1", type := TType.timeout, token := 0, delay := 50, created := 0,
    lastExecuted := none, executionCount := 0, maxExecutions := none,
    ttlMs := none, memoryPressureLimit := none, streamCompleted := false }

def tmStateOldTimeout : TMState :=
  { timers := [("t1", oldTimeoutHandle)], nextId := 2, isShuttingDown := false,
    armed := [(0, "t1")], nextToken := 1, calls := [], log := [] }

/-- An interval task whose `maxExecutions` field is set. -/
def countedHandle (count : Nat) (maxE : Option Nat) : TimerHandle :=
  { id := "w", type := TType.interval, token := 3, delay := 10, created := 0,
    lastExecuted := none, executionCount := count, maxExecutions := maxE,
    ttlMs := none, memoryPressureLimit := none, streamCompleted := false }

def tmStateCounted (count : Nat) (maxE : Option Nat) : TMState :=
  { timers := [("w", countedHandle count maxE)], nextId := 2,
    isShuttingDown := false, armed := [(3, "w")], nextToken := 4,
    calls := [], log := [] }

/-- An interval task with `ttlMs = 0`, which JavaScript truthiness makes
indistinguishable from having no TTL at all. -/
def ttlZeroHandle : TimerHandle :=
  { id := "z", type := TType.interval, token := 5, delay := 10, created := 0,
    lastExecuted := none, executionCount := 0, maxExecutions := none,
    ttlMs := some 0, memoryPressureLimit := none, streamCompleted := false }

def tmStateTtlZero : TMState :=
  { timers := [("z", ttlZeroHandle)], nextId := 2, isShuttingDown := false,
    armed := [(5, "z")], nextToken := 6, calls := [], log := [] }

/-- An interval task with `ttlMs = 5` created at time 0. -/
def ttlFiveHandle : TimerHandle :=
  { id := "v", type := TType.interval, token := 8, delay := 1, created := 0,
    lastExecuted := none, executionCount := 0, maxExecutions := none,
    ttlMs := some 5, memoryPressureLimit := none, streamCompleted := false }

def tmStateTtlFive : TMState :=
  { timers := [("v", ttlFiveHandle)], nextId := 2, isShuttingDown := false,
    armed := [(8, "v")], nextToken := 9, calls := [], log := [] }

def okTick (now : Int) : Tick := { now := now, pressure := 0, cbResult := Except.ok () }

def errTick (now : Int) (e : String) : Tick :=
  { now := now, pressure := 0, cbResult := Except.error e }

def demoResource (i : Nat) : Resource :=
  { rid := "r" ++ toString i, rtype := "buffer", cleanupResult := Except.ok (),
    memoryUsage := none }

def demoInfo (i : Nat) : ResourceInfo := mkInfo (demoResource i) (Int.ofNat i)

/-- Seven tracked resources, `lastAccessed` 1..7, capacity exactly 7. -/
def rStateSeven : RState :=
  { resources :=
      [("r1", demoInfo 1), ("r2", demoInfo 2), ("r3", demoInfo 3),
       ("r4", demoInfo 4), ("r5", demoInfo 5), ("r6", demoInfo 6),
       ("r7", demoInfo 7)],
    maxResources := 7, maxIdleTime := 300000, cleaned := [], events := [], log := [] }

/-- An empty manager with capacity 2. -/
def rStateCapTwo : RState :=
  { resources := [], maxResources := 2, maxIdleTime := 300000,
    cleaned := [], events := [], log := [] }

/-- A tracked resource whose cleanup throws. -/
def failingResource : Resource :=
  { rid := "f", rtype := "socket", cleanupResult := Except.error "EBADF",
    memoryUsage := some 16 }

def rStateFailing : RState :=
  { resources := [("f", mkInfo failingResource 0)], maxResources := 100,
    maxIdleTime := 300000, cleaned := [], events := [], log := [] }

/-! ## Lemmas about the association-list map -/

theorem jsLookup_jsSet_self {α : Type} (l : List (String × α)) (k : String) (v : α) :
    jsLookup (jsSet l k v) k = some v := by
  induction l with
  | nil => simp [jsSet, jsLookup]
  | cons e t ih =>
      by_cases h : e.1 = k
      · simp [jsSet, h, jsLookup]
      · simp [jsSet, h, jsLookup, ih]

theorem jsLookup_jsSet_ne {α : Type} (l : List (String × α)) (k k' : String) (v : α)
    (h : k' ≠ k) : jsLookup (jsSet l k v) k' = jsLookup l k' := by
  induction l with
  | nil => simp [jsSet, jsLookup, Ne.symm h]
  | cons e t ih =>
      by_cases he : e.1 = k
      · simp [jsSet, he, jsLookup, Ne.symm h, h, ih]
      · by_cases he' : e.1 = k'
        · simp [jsSet, he, jsLookup, he', h]
        · simp [jsSet, he, jsLookup, he', ih]

theorem jsDel_eq_filter {α : Type} (l : List (String × α)) (k : String) :
    jsDel l k = l.filter (fun e => decide (e.1 ≠ k)) := by
  induction l with
  | nil => simp [jsDel]
  | cons e t ih =>
      by_cases h : e.1 = k
      · simp [jsDel, h, ih]
      · simp [jsDel, h, ih]

theorem jsLookup_eq_none_iff {α : Type} (l : List (String × α)) (k : String) :
    jsLookup l k = none ↔ ∀ e ∈ l, e.1 ≠ k := by
  induction l with
  | nil => simp [jsLookup]
  | cons e t ih =>
      by_cases h : e.1 = k
      · simp [jsLookup, h]
      · simp [jsLookup, h, ih]

theorem jsLookup_jsDel_self {α : Type} (l : List (String × α)) (k : String) :
    jsLookup (jsDel l k) k = none := by
  rw [jsLookup_eq_none_iff, jsDel_eq_filter]
  intro e he
  have := (List.mem_filter.mp he).2
  simpa using this

theorem jsLookup_jsDel_ne {α : Type} (l : List (String × α)) (k k' : String)
    (h : k' ≠ k) : jsLookup (jsDel l k) k' = jsLookup l k' := by
  induction l with
  | nil => simp [jsDel]
  | cons e t ih =>
      by_cases he : e.1 = k
      · simp [jsDel, he, jsLookup, Ne.symm h, h, ih]
      · by_cases he' : e.1 = k'
        · simp [jsDel, he, jsLookup, he', h]
        · simp [jsDel, he, jsLookup, he', ih]

theorem jsSet_of_lookup_none {α : Type} (l : List (String × α)) (k : String) (v : α)
    (h : jsLookup l k = none) : jsSet l k v = l ++ [(k, v)] := by
  induction l with
  | nil => simp [jsSet]
  | cons e t ih =>
      by_cases he : e.1 = k
      · simp [jsLookup, he] at h
      · simp [jsLookup, he] at h
        simp [jsSet, he, ih h]

theorem jsLookup_mem {α : Type} {l : List (String × α)} {k : String} {v : α}
    (h : jsLookup l k = some v) : (k, v) ∈ l := by
  induction l with
  | nil => simp [jsLookup] at h
  | cons e t ih =>
      by_cases he : e.1 = k
      · simp [jsLookup, he] at h
        have hev : (k, v) = e := by cases e; simp_all
        exact List.mem_cons.mpr (Or.inl hev)
      · simp [jsLookup, he] at h
        exact List.mem_cons_of_mem _ (ih h)

theorem mem_jsLookup_of_nodup {α : Type} {l : List (String × α)} {k : String} {v : α}
    (hnd : (keysOf l).Nodup) (hm : (k, v) ∈ l) : jsLookup l k = some v := by
  induction l with
  | nil => simp at hm
  | cons e t ih =>
      have hnd1 : (e.1 :: keysOf t).Nodup := hnd
      have hne : e.1 ∉ keysOf t := (List.nodup_cons.mp hnd1).1
      have hnd' : (keysOf t).Nodup := (List.nodup_cons.mp hnd1).2
      rcases List.mem_cons.mp hm with h | h
      · subst h
        simp [jsLookup]
      · have hkmem : k ∈ keysOf t := List.mem_map.mpr ⟨(k, v), h, rfl⟩
        have hk : e.1 ≠ k := fun hek => hne (hek ▸ hkmem)
        simp [jsLookup, hk, ih hnd' h]

theorem jsDel_jsSet_self {α : Type} (l : List (String × α)) (k : String) (v : α) :
    jsDel (jsSet l k v) k = jsDel l k := by
  induction l with
  | nil => simp [jsSet, jsDel]
  | cons e t ih =>
      by_cases he : e.1 = k
      · simp [jsSet, he, jsDel, ih]
      · simp [jsSet, he, jsDel, ih]

theorem entry_unique_of_nodup {α : Type} {l : List (String × α)} {k : String} {v v' : α}
    (hnd : (keysOf l).Nodup) (h1 : (k, v) ∈ l) (h2 : (k, v') ∈ l) : v = v' := by
  have e1 := mem_jsLookup_of_nodup hnd h1
  have e2 := mem_jsLookup_of_nodup hnd h2
  rw [e1] at e2
  exact Option.some.inj e2

/-! ## TimerManager: `clearTimer`, `clearMany` and `emergencyCleanup` -/

theorem clearTimer_timers (id : String) (st : TMState) :
    ((clearTimer id st).2).timers = st.timers.filter (fun e => decide (e.1 ≠ id)) := by
  cases hl : jsLookup st.timers id with
  | none =>
      simp only [clearTimer, hl]
      symm
      apply List.filter_eq_self.mpr
      intro e he
      have := (jsLookup_eq_none_iff st.timers id).mp hl e he
      simpa using this
  | some h => simp [clearTimer, hl, jsDel_eq_filter]

theorem clearMany_timers (ids : List String) (st : TMState) :
    (clearMany ids st).timers = st.timers.filter (fun e => decide (e.1 ∉ ids)) := by
  induction ids generalizing st with
  | nil => simp [clearMany]
  | cons i t ih =>
      show (clearMany t ((clearTimer i st).2)).timers = _
      rw [ih, clearTimer_timers, List.filter_filter]
      apply List.filter_congr
      intro e _
      by_cases h1 : e.1 = i
      · simp [h1]
      · by_cases h2 : e.1 ∈ t <;> simp [h1, h2]

/-- For a well-formed registry with unique keys, a key belongs to the ids
of the handles selected by `P` exactly when the key's own handle satisfies
`P`. -/
theorem key_mem_handle_ids {st : TMState} (hwf : tmWellFormed st)
    (hnd : tmNodupKeys st) (P : TimerHandle → Bool) {k : String} {h : TimerHandle}
    (hm : (k, h) ∈ st.timers) :
    (k ∈ ((st.timers.map Prod.snd).filter P).map TimerHandle.id) ↔ P h = true := by
  constructor
  · intro hk
    rcases List.mem_map.mp hk with ⟨h', hh', hid⟩
    rcases List.mem_filter.mp hh' with ⟨hmem, hP⟩
    rcases List.mem_map.mp hmem with ⟨e, he, hsnd⟩
    have hek : e.1 = k := by rw [← (hwf e he), hsnd, hid]
    have hpair : (k, h') ∈ st.timers := by
      have : e = (k, h') := by
        cases e
        simp only at hek hsnd
        rw [hek, hsnd]
      exact this ▸ he
    have : h = h' := entry_unique_of_nodup hnd hm hpair
    rw [this]
    exact hP
  · intro hP
    exact List.mem_map.mpr
      ⟨h, List.mem_filter.mpr ⟨List.mem_map.mpr ⟨(k, h), hm, rfl⟩, hP⟩, hwf (k, h) hm⟩

/-- Key version: a key is among the keys selected from the entries by `P`
exactly when its own entry satisfies `P`. -/
theorem key_mem_entry_ids {l : List (String × TimerHandle)}
    (hnd : (keysOf l).Nodup) (P : String × TimerHandle → Bool) {k : String}
    {h : TimerHandle} (hm : (k, h) ∈ l) :
    (k ∈ (l.filter P).map Prod.fst) ↔ P (k, h) = true := by
  constructor
  · intro hk
    rcases List.mem_map.mp hk with ⟨e, he, hfst⟩
    rcases List.mem_filter.mp he with ⟨hmem, hP⟩
    have hpair : (k, e.2) ∈ l := by
      have : e = (k, e.2) := by cases e; simp only at hfst; rw [hfst]
      exact this ▸ hmem
    have heq : h = e.2 := entry_unique_of_nodup hnd hm hpair
    have : e = (k, h) := by cases e; simp only at hfst heq; rw [hfst, heq]
    rw [← this]
    exact hP
  · intro hP
    exact List.mem_map.mpr ⟨(k, h), List.mem_filter.mpr ⟨hm, hP⟩, rfl⟩

theorem tmWellFormed_filter {st : TMState} (hwf : tmWellFormed st)
    (P : String × TimerHandle → Bool) :
    ∀ e ∈ st.timers.filter P, (Prod.snd e).id = e.1 :=
  fun e he => hwf e (List.mem_filter.mp he).1

theorem tmNodupKeys_filter {st : TMState} (hnd : tmNodupKeys st)
    (P : String × TimerHandle → Bool) :
    (keysOf (st.timers.filter P)).Nodup := by
  have hsub : List.Sublist (st.timers.filter P) st.timers := List.filter_sublist st.timers
  exact List.Nodup.sublist (List.Sublist.map Prod.fst hsub) hnd

/-- The registry left by `emergencyCleanup`, in closed form: first drop
the problematic entries, then, if more than ten entries remain, keep only
the timeouts. -/
theorem emergencyCleanup_timers (st : TMState) (now : Int)
    (hwf : tmWellFormed st) (hnd : tmNodupKeys st) :
    (emergencyCleanup now st).timers =
      (if 10 < (st.timers.filter (fun e => !(problematicB now e.2))).length then
        (st.timers.filter (fun e => !(problematicB now e.2))).filter
          (fun e => decide (e.2.type = TType.timeout))
      else st.timers.filter (fun e => !(problematicB now e.2))) := by
  have hstep2 :
      (clearMany ((findProblematicTimers now st).2.map TimerHandle.id)
        (clearMany ((findProblematicTimers now st).1.map TimerHandle.id) st)).timers =
      st.timers.filter (fun e => !(problematicB now e.2)) := by
    have hcm : (clearMany ((findProblematicTimers now st).1.map TimerHandle.id) st).timers
        = st.timers.filter (fun e => decide (e.1 ∉ (findProblematicTimers now st).1.map TimerHandle.id)) :=
      clearMany_timers _ _
    rw [clearMany_timers, hcm, List.filter_filter]
    apply List.filter_congr
    intro e he
    have hml : (e.1, e.2) ∈ st.timers := by simpa using he
    have h1 := key_mem_handle_ids hwf hnd (longRunningB now) hml
    have h2 := key_mem_handle_ids hwf hnd highExecutionB hml
    simp only [findProblematicTimers] at *
    by_cases hL : longRunningB now e.2 <;> by_cases hH : highExecutionB e.2 <;>
      simp [problematicB, hL, hH, h1, h2]
  show (emergencyCleanup now st).timers = _
  rw [emergencyCleanup]
  simp only [hstep2]
  by_cases hlen : 10 < (st.timers.filter (fun e => !(problematicB now e.2))).length
  · simp only [hlen, if_pos]
    rw [clearMany_timers]
    rw [hstep2]
    apply List.filter_congr
    intro e he
    have hml : (e.1, e.2) ∈ st.timers.filter (fun e => !(problematicB now e.2)) := by
      simpa using he
    have hk := key_mem_entry_ids (l := st.timers.filter (fun e => !(problematicB now e.2)))
      (tmNodupKeys_filter hnd _) (fun e => decide (e.2.type = TType.interval)) hml
    rw [decide_eq_decide]
    constructor
    · intro hnm
      cases ht : e.2.type with
      | interval => exact absurd (hk.mpr (by simp [ht])) hnm
      | timeout => rfl
    · intro ht hmem
      have := hk.mp hmem
      simp [ht] at this
  · simp only [hlen, if_neg, ite_false]
    exact hstep2

/-- C1 (amended): `emergencyCleanup` takes no cap argument and performs no
`(createdAt ascending, runCount descending)` ranking.  A timer survives it
iff it is not problematic (age at most five minutes and at most 1000
executions) and is either a deferred timeout or at most ten
non-problematic timers remain after the problematic ones are cancelled;
in particular problematic deferred (timeout) tasks are cancelled too. -/
theorem emergencyCleanup_policy (st : TMState) (now : Int)
    (hwf : tmWellFormed st) (hnd : tmNodupKeys st) (k : String) (h : TimerHandle) :
    ((k, h) ∈ (emergencyCleanup now st).timers ↔
      ((k, h) ∈ st.timers ∧ problematicB now h = false ∧
        (h.type = TType.timeout ∨
          (st.timers.filter (fun e => !(problematicB now e.2))).length ≤ 10))) := by
  rw [emergencyCleanup_timers st now hwf hnd]
  by_cases hlen : 10 < (st.timers.filter (fun e => !(problematicB now e.2))).length
  · simp only [hlen, if_pos]
    constructor
    · intro hm
      have h1 := List.mem_filter.mp hm
      have h2 := List.mem_filter.mp h1.1
      refine ⟨h2.1, by simpa using h2.2, Or.inl (by simpa using h1.2)⟩
    · rintro ⟨hm, hp, hor⟩
      rcases hor with ht | hle
      · exact List.mem_filter.mpr ⟨List.mem_filter.mpr ⟨hm, by simp [hp]⟩, by simp [ht]⟩
      · exact absurd hlen (not_lt.mpr hle)
  · simp only [hlen, if_neg, ite_false]
    constructor
    · intro hm
      have h2 := List.mem_filter.mp hm
      exact ⟨h2.1, by simpa using h2.2, Or.inr (not_lt.mp hlen)⟩
    · rintro ⟨hm, hp, _⟩
      exact List.mem_filter.mpr ⟨hm, by simp [hp]⟩

/-- C1 counterexample: a manager holding a single six-and-a-half-minute
old deferred (timeout) task.  `emergencyCleanup` cancels it, although the
claim states deferred tasks are never touched. -/
theorem emergencyCleanup_cancels_deferred :
    jsLookup tmStateOldTimeout.timers "t1" = some oldTimeoutHandle ∧
    oldTimeoutHandle.type = TType.timeout ∧
    (emergencyCleanup 400000 tmStateOldTimeout).timers = [] := by
  decide

/-- Witness for `emergencyCleanup_policy` at a concrete state. -/
theorem emergencyCleanup_policy_witness :
    tmWellFormed tmStateOldTimeout ∧ tmNodupKeys tmStateOldTimeout ∧
      (("t1", oldTimeoutHandle) ∈ (emergencyCleanup 400000 tmStateOldTimeout).timers ↔
        (("t1", oldTimeoutHandle) ∈ tmStateOldTimeout.timers ∧
          problematicB 400000 oldTimeoutHandle = false ∧
          (oldTimeoutHandle.type = TType.timeout ∨
            (tmStateOldTimeout.timers.filter
              (fun e => !(problematicB 400000 e.2))).length ≤ 10))) :=
  ⟨by decide, by decide,
    emergencyCleanup_policy tmStateOldTimeout 400000 (by decide) (by decide)
      "t1" oldTimeoutHandle⟩

/-- C7: registering an interval under an id that already names an active
task cancels the prior native timer before installing the new handle:
afterwards exactly one registry entry exists under the id, it is the fresh
handle, and the old native timer is disarmed, so the first timer can never
fire again. -/
theorem setInterval_replaces_same_id (st : TMState) (id : String)
    (hOld : TimerHandle) (delay : Int) (opts : IntervalOptions) (now : Int)
    (hrun : st.isShuttingDown = false) (hid : id ≠ "")
    (hl : jsLookup st.timers id = some hOld) (htok : hOld.token < st.nextToken) :
    (tmSetInterval delay (some id) opts now st).1 = id ∧
    (keysOf (tmSetInterval delay (some id) opts now st).2.timers).count id = 1 ∧
    jsLookup (tmSetInterval delay (some id) opts now st).2.timers id =
      some { id := id, type := TType.interval, token := st.nextToken, delay := delay,
             created := now, lastExecuted := none, executionCount := 0,
             maxExecutions := opts.maxExecutions, ttlMs := opts.ttlMs,
             memoryPressureLimit := opts.memoryPressureLimit,
             streamCompleted := false } ∧
    (∀ s, (hOld.token, s) ∉ (tmSetInterval delay (some id) opts now st).2.armed) := by
  simp only [tmSetInterval, hrun, Bool.false_eq_true, if_false, hid, ite_false,
    hl, Option.isSome_some, if_true, clearTimer]
  refine ⟨by trivial, ?_, ?_, ?_⟩
  · have hnone : jsLookup (jsDel st.timers id) id = none := jsLookup_jsDel_self _ _
    rw [jsSet_of_lookup_none _ _ _ hnone]
    rw [keysOf, List.map_append, List.count_append]
    have hc0 : (keysOf (jsDel st.timers id)).count id = 0 := by
      rw [List.count_eq_zero]
      intro hmem
      rcases List.mem_map.mp hmem with ⟨e, he, hfst⟩
      rw [jsDel_eq_filter] at he
      have := (List.mem_filter.mp he).2
      rw [hfst] at this
      simp at this
    rw [keysOf] at hc0
    rw [hc0]
    simp
  · exact jsLookup_jsSet_self _ _ _
  · intro s hmem
    rcases List.mem_append.mp hmem with hmem | hmem
    · have := (List.mem_filter.mp hmem).2
      simp at this
    · have : (hOld.token, s) = (st.nextToken, id) := by simpa using hmem
      have := congrArg Prod.fst this
      simp only at this
      exact absurd this (Nat.ne_of_lt htok)

/-- Witness for `setInterval_replaces_same_id`. -/
theorem setInterval_replaces_same_id_witness :
    tmStateTtlZero.isShuttingDown = false ∧ "z" ≠ "" ∧
    jsLookup tmStateTtlZero.timers "z" = some ttlZeroHandle ∧
    ttlZeroHandle.token < tmStateTtlZero.nextToken ∧
    ((tmSetInterval 25 (some "z") {} 7 tmStateTtlZero).1 = "z" ∧
      (keysOf (tmSetInterval 25 (some "z") {} 7 tmStateTtlZero).2.timers).count "z" = 1 ∧
      jsLookup (tmSetInterval 25 (some "z") {} 7 tmStateTtlZero).2.timers "z" =
        some { id := "z", type := TType.interval, token := tmStateTtlZero.nextToken,
               delay := 25, created := 7, lastExecuted := none, executionCount := 0,
               maxExecutions := none, ttlMs := none, memoryPressureLimit := none,
               streamCompleted := false } ∧
      (∀ s, (ttlZeroHandle.token, s) ∉
        (tmSetInterval 25 (some "z") {} 7 tmStateTtlZero).2.armed)) :=
  ⟨rfl, by decide, by decide, by decide,
    setInterval_replaces_same_id tmStateTtlZero "z" ttlZeroHandle 25 {} 7
      rfl (by decide) (by decide) (by decide)⟩

/-! ## TimerManager: single-tick behavior -/

theorem tick_no_handle {id : String} {t : Tick} {st : TMState}
    (h : jsLookup st.timers id = none) : tick id t st = st := by
  simp [tick, h]

theorem runTicks_cons (id : String) (t : Tick) (ts : List Tick) (st : TMState) :
    runTicks id (t :: ts) st = runTicks id ts (tick id t st) := rfl

theorem runTicks_no_handle {id : String} (ts : List Tick) {st : TMState}
    (h : jsLookup st.timers id = none) : runTicks id ts st = st := by
  induction ts with
  | nil => rfl
  | cons t ts ih => rw [runTicks_cons, tick_no_handle h, ih]

/-- A tick whose pre- and post-checks both fail: stamp, count, run the
callback (catching an error into the log), keep the task. -/
theorem tick_step_run {id : String} {t : Tick} {st : TMState} {h : TimerHandle}
    (hlk : jsLookup st.timers id = some h)
    (hpre : shouldTerminateTimer h t.now t.pressure = false)
    (hpost : shouldTerminateTimer
      { h with lastExecuted := some t.now, executionCount := h.executionCount + 1 }
      t.now t.pressure = false) :
    tick id t st =
      { st with
        timers := jsSet st.timers id
          { h with lastExecuted := some t.now,
                   executionCount := h.executionCount + 1 },
        calls := st.calls ++ [id],
        log := match t.cbResult with
               | Except.ok _ => st.log
               | Except.error e => st.log ++ [cbErrorLog id e] } := by
  simp [tick, hlk, hpre, hpost]

/-- A tick whose pre-check fails but whose post-check succeeds: the
callback still runs this cycle, then the task is auto-terminated. -/
theorem tick_step_term {id : String} {t : Tick} {st : TMState} {h : TimerHandle}
    (hlk : jsLookup st.timers id = some h)
    (hpre : shouldTerminateTimer h t.now t.pressure = false)
    (hpost : shouldTerminateTimer
      { h with lastExecuted := some t.now, executionCount := h.executionCount + 1 }
      t.now t.pressure = true) :
    tick id t st =
      { st with
        timers := jsDel st.timers id,
        armed := st.armed.filter (fun p => decide (p.1 ≠ h.token)),
        calls := st.calls ++ [id],
        log := (match t.cbResult with
                | Except.ok _ => st.log
                | Except.error e => st.log ++ [cbErrorLog id e]) ++ [autoTermLog id] } := by
  simp [tick, hlk, hpre, hpost, clearTimer, jsLookup_jsSet_self, jsDel_jsSet_self]

/-- A tick whose pre-check succeeds: the callback is NOT invoked and the
task is terminated immediately. -/
theorem tick_step_preterm {id : String} {t : Tick} {st : TMState} {h : TimerHandle}
    (hlk : jsLookup st.timers id = some h)
    (hpre : shouldTerminateTimer h t.now t.pressure = true) :
    tick id t st =
      { st with
        timers := jsDel st.timers id,
        armed := st.armed.filter (fun p => decide (p.1 ≠ h.token)),
        log := st.log ++ [autoTermLog id] } := by
  simp [tick, hlk, hpre, clearTimer]

theorem shouldTerm_maxExec_only {h : TimerHandle} {now : Int} {p : ℚ} {N : Nat}
    (hm : h.maxExecutions = some N) (ht : h.ttlMs = none)
    (hp : h.memoryPressureLimit = none) (hs : h.streamCompleted = false) :
    shouldTerminateTimer h now p = (decide (N ≠ 0) && decide (N ≤ h.executionCount)) := by
  simp [shouldTerminateTimer, hm, ht, hp, hs]

theorem shouldTerm_maxExec_bump {h : TimerHandle} {now now' : Int} {p : ℚ} {N : Nat}
    (hm : h.maxExecutions = some N) (ht : h.ttlMs = none)
    (hp : h.memoryPressureLimit = none) (hs : h.streamCompleted = false) :
    shouldTerminateTimer
      { h with lastExecuted := some now', executionCount := h.executionCount + 1 }
      now p = (decide (N ≠ 0) && decide (N ≤ h.executionCount + 1)) := by
  simp [shouldTerminateTimer, hm, ht, hp, hs]

/-- Running any sequence of ticks against a task whose only policy is
`maxExecutions = N`: while fewer than N ticks have happened, the task
is live with one callback invocation per tick; as soon as the N-th tick
happens, the task has been removed and the callback ran exactly N times. -/
theorem runTicks_maxExec_aux (N : Nat) :
    ∀ (ts : List Tick) (st : TMState) (h : TimerHandle) (id : String),
    jsLookup st.timers id = some h →
    h.maxExecutions = some N → h.ttlMs = none →
    h.memoryPressureLimit = none → h.streamCompleted = false →
    h.executionCount < N →
    ((h.executionCount + ts.length < N →
        ∃ h', jsLookup (runTicks id ts st).timers id = some h' ∧
          h'.executionCount = h.executionCount + ts.length ∧
          h'.maxExecutions = some N ∧ h'.ttlMs = none ∧
          h'.memoryPressureLimit = none ∧ h'.streamCompleted = false ∧
          (runTicks id ts st).calls = st.calls ++ List.replicate ts.length id) ∧
      (N ≤ h.executionCount + ts.length →
        jsLookup (runTicks id ts st).timers id = none ∧
        (runTicks id ts st).calls =
          st.calls ++ List.replicate (N - h.executionCount) id)) := by
  intro ts
  induction ts with
  | nil =>
      intro st h id hlk hm ht hp hs hcnt
      constructor
      · intro _
        exact ⟨h, hlk, by simp, hm, ht, hp, hs, by simp [runTicks]⟩
      · intro hge
        simp at hge
        omega
  | cons t ts ih =>
      intro st h id hlk hm ht hp hs hcnt
      have hNpos : N ≠ 0 := by omega
      have hpre : shouldTerminateTimer h t.now t.pressure = false := by
        rw [shouldTerm_maxExec_only hm ht hp hs]
        simp [hNpos]
        omega
      by_cases hfin : h.executionCount + 1 < N
      · have hpost : shouldTerminateTimer
            { h with lastExecuted := some t.now,
                     executionCount := h.executionCount + 1 } t.now t.pressure = false := by
          rw [shouldTerm_maxExec_bump hm ht hp hs]
          simp [hNpos]
          omega
        rw [runTicks_cons, tick_step_run hlk hpre hpost]
        have hres := ih
          { st with
            timers := jsSet st.timers id
              { h with lastExecuted := some t.now,
                       executionCount := h.executionCount + 1 },
            calls := st.calls ++ [id],
            log := match t.cbResult with
                   | Except.ok _ => st.log
                   | Except.error e => st.log ++ [cbErrorLog id e] }
          { h with lastExecuted := some t.now,
                   executionCount := h.executionCount + 1 }
          id (jsLookup_jsSet_self _ _ _) hm ht hp hs hfin
        constructor
        · intro hlt
          rcases hres.1 (by simp at hlt ⊢; omega) with
            ⟨h', hl', hc', hm', ht', hp', hs', hcalls'⟩
          refine ⟨h', hl', ?_, hm', ht', hp', hs', ?_⟩
          · simp at hc' ⊢
            omega
          · rw [hcalls']
            simp [List.replicate_succ, List.append_assoc]
        · intro hge
          have hge' : N ≤ h.executionCount + 1 + ts.length := by simp at hge; omega
          rcases hres.2 hge' with ⟨hl', hcalls'⟩
          refine ⟨hl', ?_⟩
          rw [hcalls']
          have hrep : N - h.executionCount = (N - (h.executionCount + 1)) + 1 := by omega
          rw [hrep]
          simp [List.replicate_succ, List.append_assoc]
      · have heq : h.executionCount + 1 = N := by omega
        have hpost : shouldTerminateTimer
            { h with lastExecuted := some t.now,
                     executionCount := h.executionCount + 1 } t.now t.pressure = true := by
          rw [shouldTerm_maxExec_bump hm ht hp hs]
          simp [hNpos]
          omega
        rw [runTicks_cons, tick_step_term hlk hpre hpost]
        have hnone : jsLookup (jsDel st.timers id) id = none := jsLookup_jsDel_self _ _
        rw [runTicks_no_handle ts (by exact hnone)]
        constructor
        · intro hlt
          simp at hlt
          omega
        · intro _
          refine ⟨hnone, ?_⟩
          have hrep : N - h.executionCount = 1 := by omega
          simp [hrep]

/-- C3: a periodic task registered with `maxExecutions = N` (N ≥ 1) and
no other lifecycle policy has its callback executed exactly N times over
any run of at least N ticks and is then removed from the registry; the
termination predicate is evaluated both after each invocation (the N-th
tick both runs the callback and removes the task) and before it (a task
whose count already reached N is removed by the pre-check without a
further invocation). -/
theorem maxRuns_exact (N : Nat) (hN : 1 ≤ N) (st : TMState) (id : String)
    (h : TimerHandle) (ts : List Tick)
    (hlk : jsLookup st.timers id = some h)
    (hm : h.maxExecutions = some N) (ht : h.ttlMs = none)
    (hp : h.memoryPressureLimit = none) (hs : h.streamCompleted = false)
    (hc0 : h.executionCount = 0) (hcalls : st.calls = [])
    (hlen : N ≤ ts.length) :
    ((runTicks id ts st).calls = List.replicate N id ∧
      jsLookup (runTicks id ts st).timers id = none) ∧
    (∀ (t' : Tick) (st' : TMState) (h' : TimerHandle),
      jsLookup st'.timers id = some h' → h'.maxExecutions = some N →
      h'.ttlMs = none → h'.memoryPressureLimit = none →
      h'.streamCompleted = false → N ≤ h'.executionCount →
      (tick id t' st').calls = st'.calls ∧
      jsLookup (tick id t' st').timers id = none) := by
  constructor
  · have haux := (runTicks_maxExec_aux N ts st h id hlk hm ht hp hs (by omega)).2
      (by omega)
    rcases haux with ⟨hnone, hc⟩
    refine ⟨?_, hnone⟩
    rw [hc, hcalls, hc0]
    simp
  · intro t' st' h' hlk' hm' ht' hp' hs' hge
    have hpre : shouldTerminateTimer h' t'.now t'.pressure = true := by
      rw [shouldTerm_maxExec_only hm' ht' hp' hs']
      simp
      omega
    rw [tick_step_preterm hlk' hpre]
    exact ⟨rfl, jsLookup_jsDel_self _ _⟩

/-- Witness for `maxRuns_exact`: N = 2 over three ticks. -/
theorem maxRuns_exact_witness :
    1 ≤ 2 ∧
    jsLookup (tmStateCounted 0 (some 2)).timers "w" = some (countedHandle 0 (some 2)) ∧
    2 ≤ ([okTick 10, okTick 20, okTick 30].length) ∧
    (((runTicks "w" [okTick 10, okTick 20, okTick 30] (tmStateCounted 0 (some 2))).calls
        = List.replicate 2 "w" ∧
      jsLookup (runTicks "w" [okTick 10, okTick 20, okTick 30]
        (tmStateCounted 0 (some 2))).timers "w" = none) ∧
      (∀ (t' : Tick) (st' : TMState) (h' : TimerHandle),
        jsLookup st'.timers "w" = some h' → h'.maxExecutions = some 2 →
        h'.ttlMs = none → h'.memoryPressureLimit = none →
        h'.streamCompleted = false → 2 ≤ h'.executionCount →
        (tick "w" t' st').calls = st'.calls ∧
        jsLookup (tick "w" t' st').timers "w" = none)) :=
  ⟨by decide, by decide, by decide,
    maxRuns_exact 2 (by decide) (tmStateCounted 0 (some 2)) "w"
      (countedHandle 0 (some 2)) [okTick 10, okTick 20, okTick 30]
      (by decide) (by decide) (by decide) (by decide) (by decide) (by decide)
      rfl (by decide)⟩

/-! ## TimerManager: TTL and callback-failure semantics (C9, C8) -/

theorem shouldTerm_ttl_only {h : TimerHandle} {now : Int} {p : ℚ} {T : Int}
    (hm : h.maxExecutions = none) (ht : h.ttlMs = some T)
    (hp : h.memoryPressureLimit = none) (hs : h.streamCompleted = false) :
    shouldTerminateTimer h now p = (decide (T ≠ 0) && decide (T ≤ now - h.created)) := by
  simp [shouldTerminateTimer, hm, ht, hp, hs]

theorem shouldTerm_nopolicy {h : TimerHandle} {now : Int} {p : ℚ}
    (hm : h.maxExecutions = none) (ht : h.ttlMs = none)
    (hp : h.memoryPressureLimit = none) (hs : h.streamCompleted = false) :
    shouldTerminateTimer h now p = false := by
  simp [shouldTerminateTimer, hm, ht, hp, hs]

/-- As long as every tick happens strictly before the TTL deadline, a
TTL-only task stays alive, its callback runs on every tick, and its
creation time never changes. -/
theorem runTicks_ttl_alive_aux (T : Int) (_hT : 1 ≤ T) :
    ∀ (ts : List Tick) (st : TMState) (h : TimerHandle) (id : String),
    jsLookup st.timers id = some h →
    h.maxExecutions = none → h.ttlMs = some T →
    h.memoryPressureLimit = none → h.streamCompleted = false →
    (∀ t ∈ ts, t.now - h.created < T) →
    ∃ h', jsLookup (runTicks id ts st).timers id = some h' ∧
      h'.executionCount = h.executionCount + ts.length ∧
      h'.created = h.created ∧ h'.maxExecutions = none ∧ h'.ttlMs = some T ∧
      h'.memoryPressureLimit = none ∧ h'.streamCompleted = false ∧
      (runTicks id ts st).calls = st.calls ++ List.replicate ts.length id := by
  intro ts
  induction ts with
  | nil =>
      intro st h id hlk hm ht hp hs _
      exact ⟨h, hlk, by simp, rfl, hm, ht, hp, hs, by simp [runTicks]⟩
  | cons t ts ih =>
      intro st h id hlk hm ht hp hs hbound
      have hnow : t.now - h.created < T := hbound t (List.mem_cons_self _ _)
      have hpre : shouldTerminateTimer h t.now t.pressure = false := by
        rw [shouldTerm_ttl_only hm ht hp hs]
        simp
        omega
      have hpost : shouldTerminateTimer
          { h with lastExecuted := some t.now,
                   executionCount := h.executionCount + 1 } t.now t.pressure = false := by
        have hstep : shouldTerminateTimer
            { h with lastExecuted := some t.now,
                     executionCount := h.executionCount + 1 } t.now t.pressure
            = (decide (T ≠ 0) && decide (T ≤ t.now - h.created)) :=
          shouldTerm_ttl_only hm ht hp hs
        rw [hstep]
        simp
        omega
      rw [runTicks_cons, tick_step_run hlk hpre hpost]
      have hres := ih
        { st with
          timers := jsSet st.timers id
            { h with lastExecuted := some t.now,
                     executionCount := h.executionCount + 1 },
          calls := st.calls ++ [id],
          log := match t.cbResult with
                 | Except.ok _ => st.log
                 | Except.error e => st.log ++ [cbErrorLog id e] }
        { h with lastExecuted := some t.now,
                 executionCount := h.executionCount + 1 }
        id (jsLookup_jsSet_self _ _ _) hm ht hp hs
        (fun t' ht' => hbound t' (List.mem_cons_of_mem _ ht'))
      rcases hres with ⟨h', hl', hc', hcr', hm', ht', hp', hs', hcalls'⟩
      refine ⟨h', hl', ?_, hcr', hm', ht', hp', hs', ?_⟩
      · simp at hc' ⊢
        omega
      · rw [hcalls']
        simp [List.replicate_succ, List.append_assoc]

/-- C9 (amended, T ≥ 1): a TTL-T task is never terminated strictly before
T milliseconds have elapsed — every tick strictly inside the window keeps
it alive and runs its callback — and at the first tick at or after the
deadline the pre-check terminates it (without invoking the callback on
that final cycle). -/
theorem ttl_termination (T : Int) (hT : 1 ≤ T) (st : TMState) (id : String)
    (h : TimerHandle)
    (hlk : jsLookup st.timers id = some h)
    (hm : h.maxExecutions = none) (ht : h.ttlMs = some T)
    (hp : h.memoryPressureLimit = none) (hs : h.streamCompleted = false) :
    (∀ t : Tick, t.now - h.created < T →
      jsLookup (tick id t st).timers id =
        some { h with lastExecuted := some t.now,
                      executionCount := h.executionCount + 1 } ∧
      (tick id t st).calls = st.calls ++ [id]) ∧
    (∀ t : Tick, T ≤ t.now - h.created →
      jsLookup (tick id t st).timers id = none ∧
      (tick id t st).calls = st.calls) ∧
    (∀ ts : List Tick, (∀ t ∈ ts, t.now - h.created < T) →
      ∃ h', jsLookup (runTicks id ts st).timers id = some h' ∧
        h'.executionCount = h.executionCount + ts.length) := by
  refine ⟨?_, ?_, ?_⟩
  · intro t hnow
    have hpre : shouldTerminateTimer h t.now t.pressure = false := by
      rw [shouldTerm_ttl_only hm ht hp hs]
      simp
      omega
    have hpost : shouldTerminateTimer
        { h with lastExecuted := some t.now,
                 executionCount := h.executionCount + 1 } t.now t.pressure = false := by
      have hstep : shouldTerminateTimer
          { h with lastExecuted := some t.now,
                   executionCount := h.executionCount + 1 } t.now t.pressure
          = (decide (T ≠ 0) && decide (T ≤ t.now - h.created)) :=
        shouldTerm_ttl_only hm ht hp hs
      rw [hstep]
      simp
      omega
    rw [tick_step_run hlk hpre hpost]
    exact ⟨jsLookup_jsSet_self _ _ _, rfl⟩
  · intro t hnow
    have hpre : shouldTerminateTimer h t.now t.pressure = true := by
      rw [shouldTerm_ttl_only hm ht hp hs]
      simp
      constructor
      · omega
      · exact hnow
    rw [tick_step_preterm hlk hpre]
    exact ⟨jsLookup_jsDel_self _ _, rfl⟩
  · intro ts hbound
    rcases runTicks_ttl_alive_aux T hT ts st h id hlk hm ht hp hs hbound with
      ⟨h', hl', hc', _⟩
    exact ⟨h', hl', hc'⟩

/-- Witness for `ttl_termination`: T = 5 on a concrete one-task state. -/
theorem ttl_termination_witness :
    (1 : Int) ≤ 5 ∧
    jsLookup tmStateTtlFive.timers "v" = some ttlFiveHandle ∧
    ((∀ t : Tick, t.now - ttlFiveHandle.created < 5 →
      jsLookup (tick "v" t tmStateTtlFive).timers "v" =
        some { ttlFiveHandle with lastExecuted := some t.now,
                                  executionCount := ttlFiveHandle.executionCount + 1 } ∧
      (tick "v" t tmStateTtlFive).calls = tmStateTtlFive.calls ++ ["v"]) ∧
    (∀ t : Tick, 5 ≤ t.now - ttlFiveHandle.created →
      jsLookup (tick "v" t tmStateTtlFive).timers "v" = none ∧
      (tick "v" t tmStateTtlFive).calls = tmStateTtlFive.calls) ∧
    (∀ ts : List Tick, (∀ t ∈ ts, t.now - ttlFiveHandle.created < 5) →
      ∃ h', jsLookup (runTicks "v" ts tmStateTtlFive).timers "v" = some h' ∧
        h'.executionCount = ttlFiveHandle.executionCount + ts.length)) :=
  ⟨by decide, by decide,
    ttl_termination 5 (by decide) tmStateTtlFive "v" ttlFiveHandle
      (by decide) (by decide) (by decide) (by decide) (by decide)⟩

/-- C9 counterexample: a task with `ttlMs = 0` is never terminated by the
TTL condition at all — `0` is falsy, so the check is skipped.  Two ticks
far past time 0 both run the callback and leave the task alive, and the
termination predicate is still false at time 10^9. -/
theorem ttlZero_never_terminates :
    ttlZeroHandle.ttlMs = some 0 ∧
    jsLookup (runTicks "z" [okTick 5000, okTick 10000] tmStateTtlZero).timers "z" =
      some { ttlZeroHandle with lastExecuted := some 10000, executionCount := 2 } ∧
    shouldTerminateTimer
      { ttlZeroHandle with lastExecuted := some 10000, executionCount := 2 }
      1000000000 0 = false := by
  decide

/-- C8 counterexample: the caught-callback log line carries the task id
but not the execution count — two registries that differ only in the
count yield the identical log line on a failing tick. -/
theorem callback_error_log_lacks_count :
    (countedHandle 3 none).executionCount ≠ (countedHandle 7 none).executionCount ∧
    (tick "w" (errTick 10 "boom") (tmStateCounted 3 none)).log =
      ["Timer w callback error:boom"] ∧
    (tick "w" (errTick 10 "boom") (tmStateCounted 7 none)).log =
      ["Timer w callback error:boom"] := by
  decide

/-- C8 (amended): an exception thrown by a periodic callback is caught
and logged with the task id (the execution count is not part of the log
entry), and it does not cancel the task: the task stays registered with
its count advanced and its callback is invoked again on the next tick. -/
theorem callback_error_nonfatal (st : TMState) (id : String) (h : TimerHandle)
    (e : String) (t1 t2 : Tick)
    (hlk : jsLookup st.timers id = some h)
    (hm : h.maxExecutions = none) (ht : h.ttlMs = none)
    (hp : h.memoryPressureLimit = none) (hs : h.streamCompleted = false)
    (herr : t1.cbResult = Except.error e) :
    jsLookup (tick id t1 st).timers id =
      some { h with lastExecuted := some t1.now,
                    executionCount := h.executionCount + 1 } ∧
    (tick id t1 st).log = st.log ++ [cbErrorLog id e] ∧
    (tick id t1 st).calls = st.calls ++ [id] ∧
    (tick id t2 (tick id t1 st)).calls = st.calls ++ [id, id] := by
  have hpre : shouldTerminateTimer h t1.now t1.pressure = false :=
    shouldTerm_nopolicy hm ht hp hs
  have hpost : shouldTerminateTimer
      { h with lastExecuted := some t1.now,
               executionCount := h.executionCount + 1 } t1.now t1.pressure = false :=
    shouldTerm_nopolicy hm ht hp hs
  rw [tick_step_run hlk hpre hpost]
  refine ⟨jsLookup_jsSet_self _ _ _, by simp [herr], rfl, ?_⟩
  have hpre2 : shouldTerminateTimer
      { h with lastExecuted := some t1.now,
               executionCount := h.executionCount + 1 } t2.now t2.pressure = false :=
    shouldTerm_nopolicy hm ht hp hs
  have hpost2 : shouldTerminateTimer
      { h with lastExecuted := some t2.now,
               executionCount := h.executionCount + 1 + 1 } t2.now t2.pressure = false :=
    shouldTerm_nopolicy hm ht hp hs
  rw [tick_step_run (jsLookup_jsSet_self _ _ _) hpre2 hpost2]
  simp

/-- Witness for `callback_error_nonfatal`. -/
theorem callback_error_nonfatal_witness :
    jsLookup (tmStateCounted 3 none).timers "w" = some (countedHandle 3 none) ∧
    (errTick 10 "boom").cbResult = Except.error "boom" ∧
    (jsLookup (tick "w" (errTick 10 "boom") (tmStateCounted 3 none)).timers "w" =
      some { (countedHandle 3 none) with
             lastExecuted := some 10,
             executionCount := (countedHandle 3 none).executionCount + 1 } ∧
    (tick "w" (errTick 10 "boom") (tmStateCounted 3 none)).log =
      (tmStateCounted 3 none).log ++ [cbErrorLog "w" "boom"] ∧
    (tick "w" (errTick 10 "boom") (tmStateCounted 3 none)).calls =
      (tmStateCounted 3 none).calls ++ ["w"] ∧
    (tick "w" (okTick 20)
      (tick "w" (errTick 10 "boom") (tmStateCounted 3 none))).calls =
      (tmStateCounted 3 none).calls ++ ["w", "w"]) :=
  ⟨by decide, rfl,
    callback_error_nonfatal (tmStateCounted 3 none) "w" (countedHandle 3 none)
      "boom" (errTick 10 "boom") (okTick 20)
      (by decide) (by decide) (by decide) (by decide) (by decide) rfl⟩

/-! ## Mutex: FIFO fairness (C4) and `withLock` release (C5) -/

theorem drop_one_append {w : Nat} {l : List Nat} (h : l ≠ []) :
    (l ++ [w]).drop 1 = l.drop 1 ++ [w] := by
  cases l with
  | nil => exact absurd rfl h
  | cons c rest => simp

theorem head_append_of_ne_nil {w : Nat} {l : List Nat} (h : l ≠ []) :
    (l ++ [w]).head? = l.head? := by
  cases l with
  | nil => exact absurd rfl h
  | cons c rest => simp

theorem lockInv_init : lockInv initLock := by
  refine ⟨rfl, ?_, ?_, ?_⟩
  · intro h
    simp [initLock] at h
  · intro w h
    simp [initLock] at h
  · intro h
    simp [initLock] at h

theorem lockInv_req {st : LockState} (hinv : lockInv st) :
    lockInv (lockStep LockEvent.req st) := by
  obtain ⟨h1, h2, h3, h4⟩ := hinv
  by_cases hq : (st.queue ++ [st.nextWaiter]).length = 1
  · have hqnil : st.queue = [] := by
      cases hmt : st.queue with
      | nil => rfl
      | cons c rest => rw [hmt] at hq; simp at hq
    have hlock : st.locked = false := by
      cases hl : st.locked with
      | false => rfl
      | true => exact absurd hqnil (h2 hl)
    have hwait : waiting st = [] := by simp [waiting, hlock, hqnil]
    have harr : st.arrivals = st.grants := by
      rw [h1, hwait]
      simp
    simp only [lockStep, hq, if_pos, tryLock, hlock, Bool.false_eq_true, if_false,
      ite_false]
    refine ⟨?_, ?_, ?_, ?_⟩
    · simp [waiting, hqnil, harr]
    · intro _
      simp [hqnil]
    · intro w hw
      have hnone : st.pendingGrant = none := by
        cases hp : st.pendingGrant with
        | none => rfl
        | some x =>
            have := h3 x hp
            rw [hqnil] at this
            simp at this
      simp only at hw
      rw [hnone] at hw
      exact absurd hw (by simp)
    · intro hp
      have hnone : st.pendingGrant = none := by
        cases hpg : st.pendingGrant with
        | none => rfl
        | some x =>
            have := h3 x hpg
            rw [hqnil] at this
            simp at this
      simp only [hnone] at hp
      simp at hp
  · have hqne : st.queue ≠ [] := by
      intro hnil
      rw [hnil] at hq
      simp at hq
    simp only [lockStep, hq, if_neg, ite_false]
    refine ⟨?_, ?_, ?_, ?_⟩
    · simp only [waiting]
      cases hl : st.locked with
      | true =>
          simp only [if_pos]
          rw [drop_one_append hqne]
          rw [h1]
          simp [waiting, hl, List.append_assoc]
      | false =>
          simp only [Bool.false_eq_true, if_false, ite_false]
          rw [h1]
          simp [waiting, hl, List.append_assoc]
    · intro _
      simp
    · intro w hw
      simp only at hw
      rw [head_append_of_ne_nil hqne]
      exact h3 w hw
    · exact h4

theorem lockInv_rel {st : LockState} (hok : st.locked = true) (hinv : lockInv st) :
    lockInv (lockStep LockEvent.rel st) := by
  obtain ⟨h1, _, _, _⟩ := hinv
  simp only [lockStep]
  refine ⟨?_, ?_, ?_, ?_⟩
  · simp only [waiting, Bool.false_eq_true, if_false, ite_false]
    rw [h1]
    simp [waiting, hok]
  · intro hfalse
    simp at hfalse
  · intro w hw
    exact hw
  · intro _
    rfl

theorem lockInv_deliver {st : LockState} (hok : st.pendingGrant.isSome = true)
    (hinv : lockInv st) : lockInv (lockStep LockEvent.deliver st) := by
  obtain ⟨h1, h2, h3, h4⟩ := hinv
  cases hpg : st.pendingGrant with
  | none => rw [hpg] at hok; simp at hok
  | some w =>
      have hlock : st.locked = false := h4 (by rw [hpg]; rfl)
      have hhead : st.queue.head? = some w := h3 w hpg
      obtain ⟨tail, hqeq⟩ : ∃ tail, st.queue = w :: tail := by
        cases hq : st.queue with
        | nil => rw [hq] at hhead; simp at hhead
        | cons c rest =>
            rw [hq] at hhead
            simp at hhead
            exact ⟨rest, by rw [hhead]⟩
      simp only [lockStep, hpg, tryLock, hlock, Bool.false_eq_true, if_false, ite_false]
      refine ⟨?_, ?_, ?_, ?_⟩
      · simp only [waiting, if_pos]
        rw [h1]
        simp [waiting, hlock, hqeq, List.append_assoc]
      · intro _
        rw [hqeq]
        simp
      · intro x hx
        simp at hx
      · intro hp
        simp at hp

theorem lockInv_run : ∀ (es : List LockEvent) (st : LockState),
    validFrom st es = true → noTimeoutFire es = true → lockInv st →
    lockInv (runEvents es st) := by
  intro es
  induction es with
  | nil => intro st _ _ hinv; exact hinv
  | cons e es ih =>
      intro st hv hnt hinv
      have hok : okEvent e st = true := by
        simp [validFrom] at hv
        exact hv.1
      have hv' : validFrom (lockStep e st) es = true := by
        simp [validFrom] at hv
        exact hv.2
      have hnt' : noTimeoutFire es = true := by
        cases e <;> simp [noTimeoutFire] at hnt ⊢ <;> exact hnt
      have hstep : lockInv (lockStep e st) := by
        cases e with
        | req => exact lockInv_req hinv
        | rel => exact lockInv_rel (by simpa [okEvent] using hok) hinv
        | deliver => exact lockInv_deliver (by simpa [okEvent] using hok) hinv
        | timedOut w => simp [noTimeoutFire] at hnt
      exact ih (lockStep e st) hv' hnt' hstep

/-- C4: over any valid run of lock requests, releases and scheduled
regrants in which no waiter times out, the sequence of lock grants is
exactly the arrival-order prefix of the `lock()` calls: release hands the
lock to the head of the wait queue, so non-timed-out waiters acquire in
strict FIFO order. -/
theorem lock_fifo (es : List LockEvent)
    (hv : validFrom initLock es = true) (hnt : noTimeoutFire es = true) :
    (runEvents es initLock).arrivals =
      (runEvents es initLock).grants ++ waiting (runEvents es initLock) ∧
    (runEvents es initLock).grants =
      (runEvents es initLock).arrivals.take (runEvents es initLock).grants.length := by
  have hinv := lockInv_run es initLock hv hnt lockInv_init
  refine ⟨hinv.1, ?_⟩
  rw [hinv.1]
  rw [List.take_left]

/-- Witness for `lock_fifo`: three contending waiters, two releases and
regrants — grants [0, 1] in arrival order, waiter 2 still queued. -/
theorem lock_fifo_witness :
    validFrom initLock
      [LockEvent.req, LockEvent.req, LockEvent.req, LockEvent.rel,
       LockEvent.deliver, LockEvent.rel, LockEvent.deliver] = true ∧
    noTimeoutFire
      [LockEvent.req, LockEvent.req, LockEvent.req, LockEvent.rel,
       LockEvent.deliver, LockEvent.rel, LockEvent.deliver] = true ∧
    ((runEvents [LockEvent.req, LockEvent.req, LockEvent.req, LockEvent.rel,
        LockEvent.deliver, LockEvent.rel, LockEvent.deliver] initLock).arrivals =
      (runEvents [LockEvent.req, LockEvent.req, LockEvent.req, LockEvent.rel,
        LockEvent.deliver, LockEvent.rel, LockEvent.deliver] initLock).grants ++
      waiting (runEvents [LockEvent.req, LockEvent.req, LockEvent.req, LockEvent.rel,
        LockEvent.deliver, LockEvent.rel, LockEvent.deliver] initLock) ∧
    (runEvents [LockEvent.req, LockEvent.req, LockEvent.req, LockEvent.rel,
        LockEvent.deliver, LockEvent.rel, LockEvent.deliver] initLock).grants =
      (runEvents [LockEvent.req, LockEvent.req, LockEvent.req, LockEvent.rel,
        LockEvent.deliver, LockEvent.rel, LockEvent.deliver] initLock).arrivals.take
        (runEvents [LockEvent.req, LockEvent.req, LockEvent.req, LockEvent.rel,
          LockEvent.deliver, LockEvent.rel, LockEvent.deliver] initLock).grants.length) :=
  ⟨by decide, by decide,
    lock_fifo
      [LockEvent.req, LockEvent.req, LockEvent.req, LockEvent.rel,
       LockEvent.deliver, LockEvent.rel, LockEvent.deliver]
      (by decide) (by decide)⟩

theorem repeat_req_locked (n : Nat) :
    ∀ st : LockState, st.locked = true → st.queue ≠ [] →
    (Nat.repeat (lockStep LockEvent.req) n st).locked = true ∧
    (Nat.repeat (lockStep LockEvent.req) n st).pendingGrant = st.pendingGrant ∧
    (Nat.repeat (lockStep LockEvent.req) n st).grants = st.grants ∧
    (Nat.repeat (lockStep LockEvent.req) n st).queue =
      st.queue ++ (List.range n).map (fun i => st.nextWaiter + i) ∧
    (Nat.repeat (lockStep LockEvent.req) n st).nextWaiter = st.nextWaiter + n := by
  induction n with
  | zero =>
      intro st hl _
      refine ⟨hl, rfl, rfl, ?_, rfl⟩
      show st.queue = st.queue ++ (List.range 0).map (fun i => st.nextWaiter + i)
      simp
  | succ n ih =>
      intro st hl hq
      rcases ih st hl hq with ⟨il, ipg, igr, iq, inw⟩
      have hqn : (Nat.repeat (lockStep LockEvent.req) n st).queue ≠ [] := by
        rw [iq]
        intro hnil
        exact hq (List.append_eq_nil.mp hnil).1
      have hlen : ¬ ((Nat.repeat (lockStep LockEvent.req) n st).queue ++
          [(Nat.repeat (lockStep LockEvent.req) n st).nextWaiter]).length = 1 := by
        cases hmt : (Nat.repeat (lockStep LockEvent.req) n st).queue with
        | nil => exact absurd hmt hqn
        | cons c rest => simp
      have hrw : Nat.repeat (lockStep LockEvent.req) (n + 1) st
          = lockStep LockEvent.req (Nat.repeat (lockStep LockEvent.req) n st) := rfl
      rw [hrw]
      simp only [lockStep, hlen, if_neg, ite_false]
      refine ⟨il, ipg, igr, ?_, ?_⟩
      · rw [iq, inw, List.range_succ]
        simp [List.append_assoc]
      · rw [inw]
        omega

theorem lockStep_deliver_some {st : LockState} {w : Nat}
    (h : st.pendingGrant = some w) :
    lockStep LockEvent.deliver st = tryLock w { st with pendingGrant := none } := by
  simp [lockStep, h]

theorem head_map_range {k : Nat} (f : Nat → Nat) (hk : 0 < k) :
    ((List.range k).map f).head? = some (f 0) := by
  cases k with
  | zero => omega
  | succ n =>
      rw [List.range_succ_eq_map]
      simp

/-- The `withLockRun` always splits into acquire, the body, then the `finally`
release, with the body's outcome propagated untouched. -/
theorem withLockRun_eq (fnResult : Except String Unit) (k : Nat) (st : LockState) :
    withLockRun fnResult k st =
      (fnResult, lockStep LockEvent.rel
        (Nat.repeat (lockStep LockEvent.req) k (lockStep LockEvent.req st))) := by
  cases fnResult <;> rfl

/-- C5: `withLock` releases on every exit path.  Starting from a free,
uncontended lock, whether the body returns normally or throws, the result
propagates the body's outcome, the lock is free immediately afterwards
(`getStats().isLocked === false`), the k waiters that queued during the
body are still queued, and the scheduled regrant hands the lock to the
first of them. -/
theorem withLock_releases (st : LockState) (fnResult : Except String Unit) (k : Nat)
    (hl : st.locked = false) (hq : st.queue = []) (_hpg : st.pendingGrant = none) :
    (withLockRun fnResult k st).1 = fnResult ∧
    ((withLockRun fnResult k st).2).locked = false ∧
    ((withLockRun fnResult k st).2).queue.length = k ∧
    (0 < k →
      ((withLockRun fnResult k st).2).pendingGrant = some (st.nextWaiter + 1) ∧
      (lockStep LockEvent.deliver ((withLockRun fnResult k st).2)).locked = true ∧
      (lockStep LockEvent.deliver ((withLockRun fnResult k st).2)).grants =
        ((withLockRun fnResult k st).2).grants ++ [st.nextWaiter + 1]) := by
  have hacq : lockStep LockEvent.req st =
      { st with locked := true, currentHolder := some st.nextWaiter,
                queue := [st.nextWaiter],
                arrivals := st.arrivals ++ [st.nextWaiter],
                nextWaiter := st.nextWaiter + 1,
                maxQueueSize := max st.maxQueueSize 1,
                lockAcquisitionCount := st.lockAcquisitionCount + 1,
                grants := st.grants ++ [st.nextWaiter] } := by
    simp [lockStep, hq, tryLock, hl]
  have hq1 : ([st.nextWaiter] : List Nat) ≠ [] := by simp
  rcases repeat_req_locked k
      { st with locked := true, currentHolder := some st.nextWaiter,
                queue := [st.nextWaiter],
                arrivals := st.arrivals ++ [st.nextWaiter],
                nextWaiter := st.nextWaiter + 1,
                maxQueueSize := max st.maxQueueSize 1,
                lockAcquisitionCount := st.lockAcquisitionCount + 1,
                grants := st.grants ++ [st.nextWaiter] }
      rfl hq1 with ⟨ml, mpg, mgr, mq, mnw⟩
  have hdrop : (Nat.repeat (lockStep LockEvent.req) k
      (lockStep LockEvent.req st)).queue.drop 1 =
      (List.range k).map (fun i => st.nextWaiter + 1 + i) := by
    rw [hacq, mq]
    simp
  have hpend : (lockStep LockEvent.rel (Nat.repeat (lockStep LockEvent.req) k
      (lockStep LockEvent.req st))).pendingGrant =
      ((List.range k).map (fun i => st.nextWaiter + 1 + i)).head? := by
    show ((Nat.repeat (lockStep LockEvent.req) k
      (lockStep LockEvent.req st)).queue.drop 1).head? = _
    rw [hdrop]
  rw [withLockRun_eq]
  refine ⟨rfl, rfl, ?_, ?_⟩
  · show ((Nat.repeat (lockStep LockEvent.req) k
      (lockStep LockEvent.req st)).queue.drop 1).length = k
    rw [hdrop]
    simp
  · intro hk
    have hpend' : (lockStep LockEvent.rel (Nat.repeat (lockStep LockEvent.req) k
        (lockStep LockEvent.req st))).pendingGrant = some (st.nextWaiter + 1) := by
      rw [hpend, head_map_range _ hk]
    refine ⟨hpend', ?_, ?_⟩
    · rw [lockStep_deliver_some hpend']
      simp [tryLock, lockStep]
    · rw [lockStep_deliver_some hpend']
      simp [tryLock, lockStep]

/-- Witness for `withLock_releases`: a throwing body with one waiter
queued during it, starting from the pristine lock. -/
theorem withLock_releases_witness :
    initLock.locked = false ∧ initLock.queue = [] ∧ initLock.pendingGrant = none ∧
    ((withLockRun (Except.error "boom") 1 initLock).1 = Except.error "boom" ∧
    ((withLockRun (Except.error "boom") 1 initLock).2).locked = false ∧
    ((withLockRun (Except.error "boom") 1 initLock).2).queue.length = 1 ∧
    (0 < 1 →
      ((withLockRun (Except.error "boom") 1 initLock).2).pendingGrant =
        some (initLock.nextWaiter + 1) ∧
      (lockStep LockEvent.deliver
        ((withLockRun (Except.error "boom") 1 initLock).2)).locked = true ∧
      (lockStep LockEvent.deliver
        ((withLockRun (Except.error "boom") 1 initLock).2)).grants =
        ((withLockRun (Except.error "boom") 1 initLock).2).grants ++
          [initLock.nextWaiter + 1])) :=
  ⟨rfl, rfl, rfl,
    withLock_releases initLock (Except.error "boom") 1 rfl rfl rfl⟩

/-! ## ResourceLifecycleManager: `unregister`, eviction and `register` -/

/-- Characterization of `unregister` on a tracked id, whatever the
cleanup outcome. -/
theorem unregisterRes_some {st : RState} {id : String} {info : ResourceInfo}
    (h : jsLookup st.resources id = some info) :
    (unregisterRes id st).resources = jsDel st.resources id ∧
    (unregisterRes id st).cleaned = st.cleaned ++ [id] ∧
    (unregisterRes id st).maxResources = st.maxResources := by
  cases hc : info.resource.cleanupResult <;> simp [unregisterRes, h, hc]

/-- C6: `unregister` on a tracked resource invokes the cleanup function
first (exactly once), and removes the record unconditionally: when the
cleanup throws, the error is logged and the `resource_cleanup_failed`
event emitted instead of propagating, and the record is still deleted. -/
theorem unregister_cleanup_unconditional (st : RState) (id : String)
    (info : ResourceInfo) (h : jsLookup st.resources id = some info) :
    (unregisterRes id st).cleaned = st.cleaned ++ [id] ∧
    jsLookup (unregisterRes id st).resources id = none ∧
    (∀ e, info.resource.cleanupResult = Except.error e →
      (unregisterRes id st).log = st.log ++ ["Failed to cleanup resource " ++ id] ∧
      (unregisterRes id st).events = st.events ++ [REvent.cleanupFailed id]) := by
  refine ⟨?_, ?_, ?_⟩
  · exact (unregisterRes_some h).2.1
  · rw [(unregisterRes_some h).1]
    exact jsLookup_jsDel_self _ _
  · intro e he
    simp [unregisterRes, h, he]

/-- Witness for `unregister_cleanup_unconditional` on a resource whose
cleanup throws. -/
theorem unregister_cleanup_unconditional_witness :
    jsLookup rStateFailing.resources "f" = some (mkInfo failingResource 0) ∧
    ((unregisterRes "f" rStateFailing).cleaned = rStateFailing.cleaned ++ ["f"] ∧
    jsLookup (unregisterRes "f" rStateFailing).resources "f" = none ∧
    (∀ e, (mkInfo failingResource 0).resource.cleanupResult = Except.error e →
      (unregisterRes "f" rStateFailing).log =
        rStateFailing.log ++ ["Failed to cleanup resource " ++ "f"] ∧
      (unregisterRes "f" rStateFailing).events =
        rStateFailing.events ++ [REvent.cleanupFailed "f"])) :=
  ⟨by decide,
    unregister_cleanup_unconditional rStateFailing "f" (mkInfo failingResource 0)
      (by decide)⟩

theorem foldUnregister (ids : List String) :
    ∀ st : RState, ids.Nodup →
    (∀ i ∈ ids, ∃ inf, jsLookup st.resources i = some inf) →
    ((ids.foldl (fun s i => unregisterRes i s) st).resources =
      st.resources.filter (fun e => decide (e.1 ∉ ids)) ∧
     (ids.foldl (fun s i => unregisterRes i s) st).cleaned = st.cleaned ++ ids ∧
     (ids.foldl (fun s i => unregisterRes i s) st).maxResources = st.maxResources) := by
  induction ids with
  | nil =>
      intro st _ _
      refine ⟨?_, by simp, rfl⟩
      symm
      apply List.filter_eq_self.mpr
      intro e _
      simp
  | cons i ids ih =>
      intro st hnd hlk
      rcases hlk i (List.mem_cons_self _ _) with ⟨inf, hinf⟩
      rcases unregisterRes_some hinf with ⟨hres, hcl, hmax⟩
      have hndtail : ids.Nodup := (List.nodup_cons.mp hnd).2
      have hnotmem : i ∉ ids := (List.nodup_cons.mp hnd).1
      have hlk' : ∀ j ∈ ids, ∃ inf', jsLookup (unregisterRes i st).resources j = some inf' := by
        intro j hj
        rcases hlk j (List.mem_cons_of_mem _ hj) with ⟨inf', hinf'⟩
        refine ⟨inf', ?_⟩
        rw [hres, jsLookup_jsDel_ne _ _ _ (fun hji => hnotmem (by rw [← hji]; exact hj))]
        exact hinf'
      have hstep := ih (unregisterRes i st) hndtail hlk'
      have hfold : List.foldl (fun s i => unregisterRes i s) st (i :: ids) =
          List.foldl (fun s i => unregisterRes i s) (unregisterRes i st) ids := rfl
      rw [hfold]
      rcases hstep with ⟨s1, s2, s3⟩
      refine ⟨?_, ?_, ?_⟩
      · rw [s1, hres, jsDel_eq_filter, List.filter_filter]
        apply List.filter_congr
        intro e _
        by_cases h1 : e.1 = i
        · simp [h1]
        · by_cases h2 : e.1 ∈ ids <;> simp [h1, h2]
      · rw [s2, hcl]
        simp
      · rw [s3, hmax]

/-- The emergency eviction in closed form: it unregisters exactly the
first `floor(n/4)` entries of the stable `lastAccessed`-ascending sort of
the table (n = table size when it runs), every survivor lies in the rest
of that sort, and the table shrinks by exactly `floor(n/4)`. -/
theorem performEmergencyCleanup_eq (st : RState) (hnd : rNodupKeys st) :
    (performEmergencyCleanup st).resources =
      st.resources.filter (fun e => decide (e.1 ∉
        ((List.insertionSort byLastAccessed st.resources).take
          (st.resources.length / 4)).map Prod.fst)) ∧
    (performEmergencyCleanup st).cleaned = st.cleaned ++
      ((List.insertionSort byLastAccessed st.resources).take
        (st.resources.length / 4)).map Prod.fst ∧
    (performEmergencyCleanup st).maxResources = st.maxResources ∧
    (performEmergencyCleanup st).resources.length =
      st.resources.length - st.resources.length / 4 ∧
    (∀ e, e ∈ (performEmergencyCleanup st).resources →
      e ∈ (List.insertionSort byLastAccessed st.resources).drop
        (st.resources.length / 4)) := by
  have hperm : List.Perm (List.insertionSort byLastAccessed st.resources) st.resources :=
    List.perm_insertionSort _ _
  have hknd : ((List.insertionSort byLastAccessed st.resources).map Prod.fst).Nodup :=
    ((hperm.map Prod.fst).nodup_iff).mpr hnd
  have hSnd : (((List.insertionSort byLastAccessed st.resources).take
      (st.resources.length / 4)).map Prod.fst).Nodup := by
    rw [List.map_take]
    exact List.Nodup.sublist (List.take_sublist _ _) hknd
  have hSlk : ∀ i ∈ ((List.insertionSort byLastAccessed st.resources).take
      (st.resources.length / 4)).map Prod.fst,
      ∃ inf, jsLookup st.resources i = some inf := by
    intro i hi
    rcases List.mem_map.mp hi with ⟨e, he, hfst⟩
    have hmem : e ∈ st.resources :=
      hperm.subset ((List.take_sublist _ _).subset he)
    refine ⟨e.2, ?_⟩
    rw [← hfst]
    apply mem_jsLookup_of_nodup hnd
    cases e
    exact hmem
  have hpe : performEmergencyCleanup st =
      (((List.insertionSort byLastAccessed st.resources).take
        (st.resources.length / 4)).map Prod.fst).foldl
        (fun s i => unregisterRes i s) st := rfl
  rcases foldUnregister _ st hSnd hSlk with ⟨f1, f2, f3⟩
  rw [hpe]
  -- disjointness between the evicted keys and the surviving keys
  have hkeys2 : (((List.insertionSort byLastAccessed st.resources).take
      (st.resources.length / 4)).map Prod.fst ++
      ((List.insertionSort byLastAccessed st.resources).drop
      (st.resources.length / 4)).map Prod.fst).Nodup := by
    rw [← List.map_append, List.take_append_drop]
    exact hknd
  have hdisj := (List.nodup_append.mp hkeys2).2.2
  set P : String × ResourceInfo → Bool := fun e => decide (e.1 ∉
      ((List.insertionSort byLastAccessed st.resources).take
        (st.resources.length / 4)).map Prod.fst) with hP
  have hfiltake : ((List.insertionSort byLastAccessed st.resources).take
      (st.resources.length / 4)).filter P = [] := by
    apply List.filter_eq_nil_iff.mpr
    intro e he
    rw [hP]
    simp only [decide_eq_true_eq, not_not]
    exact List.mem_map.mpr ⟨e, he, rfl⟩
  have hfildrop : ((List.insertionSort byLastAccessed st.resources).drop
      (st.resources.length / 4)).filter P =
      (List.insertionSort byLastAccessed st.resources).drop
        (st.resources.length / 4) := by
    apply List.filter_eq_self.mpr
    intro e he
    rw [hP]
    simp only [decide_eq_true_eq]
    intro hin
    exact hdisj hin (List.mem_map.mpr ⟨e, he, rfl⟩)
  have hfilsort : (List.insertionSort byLastAccessed st.resources).filter P =
      (List.insertionSort byLastAccessed st.resources).drop
        (st.resources.length / 4) := by
    conv =>
      lhs
      rw [← List.take_append_drop (st.resources.length / 4)
        (List.insertionSort byLastAccessed st.resources)]
    rw [List.filter_append, hfiltake, hfildrop]
    simp
  have hlenfil : (st.resources.filter P).length =
      st.resources.length - st.resources.length / 4 := by
    have hpf := (hperm.filter P).length_eq
    rw [← hpf, hfilsort, List.length_drop, hperm.length_eq]
  refine ⟨f1, f2, f3, ?_, ?_⟩
  · rw [f1]
    exact hlenfil
  · intro e he
    rw [f1] at he
    have hfe := List.mem_filter.mp he
    have hmemsort : e ∈ List.insertionSort byLastAccessed st.resources :=
      hperm.mem_iff.mpr hfe.1
    rw [← List.take_append_drop (st.resources.length / 4)
      (List.insertionSort byLastAccessed st.resources)] at hmemsort
    rcases List.mem_append.mp hmemsort with hin | hin
    · exfalso
      have hkey := hfe.2
      rw [hP] at hkey
      simp only [decide_eq_true_eq] at hkey
      exact hkey (List.mem_map.mpr ⟨e, hin, rfl⟩)
    · exact hin

theorem rNodupKeys_insert {st : RState} {r : Resource} {now : Int}
    (hfresh : jsLookup st.resources r.rid = none) (hnd : rNodupKeys st) :
    ((st.resources ++ [(r.rid, mkInfo r now)]).map Prod.fst).Nodup := by
  rw [List.map_append]
  apply List.nodup_append.mpr
  refine ⟨hnd, by simp, ?_⟩
  intro a ha hb
  simp at hb
  rcases List.mem_map.mp ha with ⟨e, he, hfst⟩
  exact (jsLookup_eq_none_iff _ _).mp hfresh e he (by rw [hfst, hb])

/-- The `register` on a fresh id, reduced to the insert-then-maybe-evict
shape of the source. -/
theorem registerRes_resources_eq (r : Resource) (now : Int) (st : RState)
    (hfresh : jsLookup st.resources r.rid = none) :
    (registerRes r now st).resources =
      (if st.maxResources < (st.resources ++ [(r.rid, mkInfo r now)]).length then
        performEmergencyCleanup
          { st with resources := st.resources ++ [(r.rid, mkInfo r now)] }
      else
        { st with resources := st.resources ++ [(r.rid, mkInfo r now)] }).resources ∧
    (registerRes r now st).cleaned =
      (if st.maxResources < (st.resources ++ [(r.rid, mkInfo r now)]).length then
        performEmergencyCleanup
          { st with resources := st.resources ++ [(r.rid, mkInfo r now)] }
      else
        { st with resources := st.resources ++ [(r.rid, mkInfo r now)] }).cleaned := by
  have hins : jsSet st.resources r.rid (mkInfo r now) =
      st.resources ++ [(r.rid, mkInfo r now)] := jsSet_of_lookup_none _ _ _ hfresh
  constructor <;>
    simp only [registerRes, hfresh, Option.isSome_none, Bool.false_eq_true, if_false,
      ite_false, hins]

/-- C10: the emergency eviction removes exactly `floor(0.25 * n)` tracked
resources — the oldest by `lastAccessed` — where n is the table size at
the moment it runs, and `register` inserts the new resource BEFORE the
capacity check, so n counts the new resource too; consequently whenever
n ≤ 3 nothing is evicted and the count stays above `maxResources`: a cap
of `maxResources ≤ 2` is never enforced. -/
theorem register_inserts_then_evicts (r : Resource) (now : Int) (st : RState)
    (hfresh : jsLookup st.resources r.rid = none) (hnd : rNodupKeys st) :
    ((registerRes r now st).resources.length =
      if st.maxResources < st.resources.length + 1 then
        (st.resources.length + 1) - (st.resources.length + 1) / 4
      else st.resources.length + 1) ∧
    (st.resources.length + 1 ≤ 3 →
      (registerRes r now st).resources.length = st.resources.length + 1) ∧
    (st.maxResources ≤ 2 → st.maxResources < st.resources.length + 1 →
      st.resources.length + 1 ≤ 3 →
      st.maxResources < (registerRes r now st).resources.length) ∧
    (st.maxResources < st.resources.length + 1 →
      ∀ ev ∈ (List.insertionSort byLastAccessed
          (st.resources ++ [(r.rid, mkInfo r now)])).take
          ((st.resources.length + 1) / 4),
        ∀ sv ∈ (registerRes r now st).resources,
          ev.2.lastAccessed ≤ sv.2.lastAccessed) := by
  have hlenins : (st.resources ++ [(r.rid, mkInfo r now)]).length
      = st.resources.length + 1 := by simp
  have hndins : rNodupKeys
      { st with resources := st.resources ++ [(r.rid, mkInfo r now)] } :=
    rNodupKeys_insert hfresh hnd
  rcases registerRes_resources_eq r now st hfresh with ⟨hres, _⟩
  rcases performEmergencyCleanup_eq
      { st with resources := st.resources ++ [(r.rid, mkInfo r now)] } hndins with
    ⟨_, _, _, plen, pdrop⟩
  have hlen1 : (registerRes r now st).resources.length =
      if st.maxResources < st.resources.length + 1 then
        (st.resources.length + 1) - (st.resources.length + 1) / 4
      else st.resources.length + 1 := by
    rw [hres]
    by_cases hcap : st.maxResources < st.resources.length + 1
    · rw [if_pos (by rw [hlenins]; exact hcap), if_pos hcap]
      have := plen
      simp only [hlenins] at this
      convert this using 2
    · rw [if_neg (by rw [hlenins]; exact hcap), if_neg hcap]
      exact hlenins
  refine ⟨hlen1, ?_, ?_, ?_⟩
  · intro h3
    rw [hlen1]
    have : (st.resources.length + 1) / 4 = 0 := by omega
    by_cases hcap : st.maxResources < st.resources.length + 1 <;> simp [hcap, this]
  · intro _ hcap h3
    rw [hlen1, if_pos hcap]
    have : (st.resources.length + 1) / 4 = 0 := by omega
    omega
  · intro hcap ev hev sv hsv
    rw [hres, if_pos (by rw [hlenins]; exact hcap)] at hsv
    have hsv' := pdrop sv hsv
    have hsorted : List.Sorted byLastAccessed
        (List.insertionSort byLastAccessed
          (st.resources ++ [(r.rid, mkInfo r now)])) :=
      List.sorted_insertionSort _ _
    rw [← List.take_append_drop
      ((st.resources.length + 1) / 4)
      (List.insertionSort byLastAccessed
        (st.resources ++ [(r.rid, mkInfo r now)]))] at hsorted
    have hpair := (List.pairwise_append.mp hsorted).2.2
    have hsv'' : sv ∈ (List.insertionSort byLastAccessed
        (st.resources ++ [(r.rid, mkInfo r now)])).drop
        ((st.resources.length + 1) / 4) := by
      simpa using hsv'
    exact hpair ev hev sv hsv''

/-- C2 (amended): `register` inserts the new resource first; only when
the tracked count then exceeds `maxResources` does it evict — invoking
the cleanups as in `unregister`, inside the `register` call, with no
error surfaced — the `floor((n+1)/4)` oldest entries by `lastAccessed`
of the post-insert table (the new resource included in the ranking), and
those ids leave tracking; at or below capacity no cleanup is invoked. -/
theorem register_capacity_handled_inside (r : Resource) (now : Int) (st : RState)
    (hfresh : jsLookup st.resources r.rid = none) (hnd : rNodupKeys st) :
    (st.maxResources < st.resources.length + 1 →
      (registerRes r now st).cleaned = st.cleaned ++
        ((List.insertionSort byLastAccessed
          (st.resources ++ [(r.rid, mkInfo r now)])).take
          ((st.resources.length + 1) / 4)).map Prod.fst ∧
      (∀ i ∈ ((List.insertionSort byLastAccessed
          (st.resources ++ [(r.rid, mkInfo r now)])).take
          ((st.resources.length + 1) / 4)).map Prod.fst,
        jsLookup (registerRes r now st).resources i = none)) ∧
    (¬ st.maxResources < st.resources.length + 1 →
      (registerRes r now st).cleaned = st.cleaned ∧
      (registerRes r now st).resources =
        st.resources ++ [(r.rid, mkInfo r now)]) := by
  have hlenins : (st.resources ++ [(r.rid, mkInfo r now)]).length
      = st.resources.length + 1 := by simp
  have hndins : rNodupKeys
      { st with resources := st.resources ++ [(r.rid, mkInfo r now)] } :=
    rNodupKeys_insert hfresh hnd
  rcases registerRes_resources_eq r now st hfresh with ⟨hres, hcl⟩
  rcases performEmergencyCleanup_eq
      { st with resources := st.resources ++ [(r.rid, mkInfo r now)] } hndins with
    ⟨pres, pcl, _, _, _⟩
  constructor
  · intro hcap
    constructor
    · rw [hcl, if_pos (by rw [hlenins]; exact hcap), pcl]
      simp [hlenins]
    · intro i hi
      rw [hres, if_pos (by rw [hlenins]; exact hcap), pres]
      apply (jsLookup_eq_none_iff _ _).mpr
      intro e he hei
      have hmem := List.mem_filter.mp he
      have hkey := hmem.2
      simp only [decide_eq_true_eq] at hkey
      apply hkey
      simp only [hlenins]
      rw [hei]
      exact hi
  · intro hcap
    constructor
    · rw [hcl, if_neg (by rw [hlenins]; exact hcap)]
    · rw [hres, if_neg (by rw [hlenins]; exact hcap)]

/-- C2 counterexample: with capacity 7 and seven tracked resources,
registering an eighth leaves 6 tracked (the source inserts first, then
evicts floor(8/4) = 2), while the specified evict-then-insert policy
would leave 7 (evicting floor(7/4) = 1 before inserting). -/
theorem register_insert_order_counterexample :
    (registerRes (demoResource 8) 8 rStateSeven).resources.length = 6 ∧
    (specRegister (demoResource 8) 8 rStateSeven).resources.length = 7 ∧
    (registerRes (demoResource 8) 8 rStateSeven).resources.length ≠
      (specRegister (demoResource 8) 8 rStateSeven).resources.length := by
  decide

/-- Witness for `register_inserts_then_evicts` on the same concrete
over-capacity state. -/
theorem register_inserts_then_evicts_witness :
    jsLookup rStateSeven.resources (demoResource 8).rid = none ∧
    rNodupKeys rStateSeven ∧
    (((registerRes (demoResource 8) 8 rStateSeven).resources.length =
      if rStateSeven.maxResources < rStateSeven.resources.length + 1 then
        (rStateSeven.resources.length + 1) - (rStateSeven.resources.length + 1) / 4
      else rStateSeven.resources.length + 1) ∧
    (rStateSeven.resources.length + 1 ≤ 3 →
      (registerRes (demoResource 8) 8 rStateSeven).resources.length =
        rStateSeven.resources.length + 1) ∧
    (rStateSeven.maxResources ≤ 2 →
      rStateSeven.maxResources < rStateSeven.resources.length + 1 →
      rStateSeven.resources.length + 1 ≤ 3 →
      rStateSeven.maxResources <
        (registerRes (demoResource 8) 8 rStateSeven).resources.length) ∧
    (rStateSeven.maxResources < rStateSeven.resources.length + 1 →
      ∀ ev ∈ (List.insertionSort byLastAccessed
          (rStateSeven.resources ++ [((demoResource 8).rid, mkInfo (demoResource 8) 8)])).take
          ((rStateSeven.resources.length + 1) / 4),
        ∀ sv ∈ (registerRes (demoResource 8) 8 rStateSeven).resources,
          ev.2.lastAccessed ≤ sv.2.lastAccessed)) :=
  ⟨by decide, by decide,
    register_inserts_then_evicts (demoResource 8) 8 rStateSeven
      (by decide) (by decide)⟩

/-- Witness for `register_capacity_handled_inside` on the same state. -/
theorem register_capacity_handled_inside_witness :
    jsLookup rStateSeven.resources (demoResource 8).rid = none ∧
    rNodupKeys rStateSeven ∧
    ((rStateSeven.maxResources < rStateSeven.resources.length + 1 →
      (registerRes (demoResource 8) 8 rStateSeven).cleaned = rStateSeven.cleaned ++
        ((List.insertionSort byLastAccessed
          (rStateSeven.resources ++ [((demoResource 8).rid, mkInfo (demoResource 8) 8)])).take
          ((rStateSeven.resources.length + 1) / 4)).map Prod.fst ∧
      (∀ i ∈ ((List.insertionSort byLastAccessed
          (rStateSeven.resources ++ [((demoResource 8).rid, mkInfo (demoResource 8) 8)])).take
          ((rStateSeven.resources.length + 1) / 4)).map Prod.fst,
        jsLookup (registerRes (demoResource 8) 8 rStateSeven).resources i = none)) ∧
    (¬ rStateSeven.maxResources < rStateSeven.resources.length + 1 →
      (registerRes (demoResource 8) 8 rStateSeven).cleaned = rStateSeven.cleaned ∧
      (registerRes (demoResource 8) 8 rStateSeven).resources =
        rStateSeven.resources ++ [((demoResource 8).rid, mkInfo (demoResource 8) 8)])) :=
  ⟨by decide, by decide,
    register_capacity_handled_inside (demoResource 8) 8 rStateSeven
      (by decide) (by decide)⟩

end Spec2Proof
